import Mathlib

/-!
Verification development for the keycloak-to-vcf-scim reconciliation engine.

The definitions below are a shallow embedding of the Python sources:
  * `src/core/config.py`          — the `Settings` model and its field list
  * `src/services/keycloak_client.py` — the group filter in `get_groups`
  * `src/services/scim_client.py` — the paginated `list_all_users` loop
  * `src/services/sync_service.py`— the reconciliation engine (`SyncService`)

Remote systems are modelled as oracles/adapters: the identity provider is a
read-only oracle (`KcOracle`), the SCIM destination is a state-threaded
adapter (`ScimAdapter`) whose call outcomes use `Except String (Option α)`:
`.error e` models a raised exception, `.ok none` a falsy return value
(`None` / `False`), `.ok (some x)` a successful (truthy) return.

Python `dict` insertion semantics (first-insertion position, last value
wins) are modelled by `pydict` helpers.
-/

namespace KVS

/-! ## Python dict model -/

/-- Insert into an association list with Python dict semantics: if the key is
already present the value is replaced in place, otherwise the pair is
appended at the end. -/
def dictInsert {K V : Type} [DecidableEq K] (k : K) (v : V) :
    List (K × V) → List (K × V)
  | [] => [(k, v)]
  | p :: ps =>
    if p.1 = k then (k, v) :: ps
    else p :: dictInsert k v ps

/-- Build a dict from a list, keyed by `f`, mirroring Python comprehensions
such as `{user.get('userName'): user for user in existing_users_list}`. -/
def dictOfList {K V : Type} [DecidableEq K] (f : V → K) (xs : List V) :
    List (K × V) :=
  xs.foldl (fun m x => dictInsert (f x) x m) []

/-- `dict.get(k)`. -/
def dictGet {K V : Type} [DecidableEq K] (k : K) (m : List (K × V)) :
    Option V :=
  (m.find? (fun p => p.1 = k)).map (·.2)

/-- The keys of a dict. -/
def dictKeys {K V : Type} (m : List (K × V)) : List K := m.map (·.1)

/-- `dict.values()`. -/
def dictValues {K V : Type} (m : List (K × V)) : List V := m.map (·.2)

/-- Python truthiness of an optional string (`if user_id:`): `None` and the
empty string are falsy. -/
def truthy : Option String → Bool
  | none => false
  | some s => s ≠ ""

/-! ## Data model (src/models/keycloak.py, src/models/scim.py) -/

/-- `KeycloakUser` (src/models/keycloak.py): the fields the engine reads. -/
structure KeycloakUser where
  id : String
  username : String
  email : Option String := none
  firstName : Option String := none
  lastName : Option String := none
  enabled : Bool := true
  deriving Repr, DecidableEq

/-- `KeycloakGroup` (src/models/keycloak.py). `attributes` is the optional
attribute map (absent map ≡ empty list); `subGroupCount` is
`Optional[int] = 0` whose falsy values (`None`/`0`) coincide on `0`. -/
structure KeycloakGroup where
  id : String
  name : String
  path : String := ""
  attributes : List (String × List String) := []
  subGroupCount : Nat := 0
  deriving Repr, DecidableEq

/-- `ScimName` (src/models/scim.py), as built by the engine. -/
structure ScimName where
  givenName : String
  familyName : String
  deriving Repr, DecidableEq

/-- `ScimEmail` (src/models/scim.py): the engine only sets `value`. -/
structure ScimEmail where
  value : String
  deriving Repr, DecidableEq

/-- `ScimUser` (src/models/scim.py): the payload object the engine builds in
`_convert_keycloak_to_scim_user`. -/
structure ScimUser where
  id : Option String := none
  externalId : String
  userName : String
  name : ScimName
  displayName : String
  emails : List ScimEmail
  active : Bool
  deriving Repr, DecidableEq

/-- `ScimGroup` (src/models/scim.py) as built by
`_convert_keycloak_to_scim_group`; `members` keeps the `value` field of each
member dict (the destination user id). -/
structure ScimGroup where
  externalId : String
  displayName : String
  members : List String
  deriving Repr, DecidableEq

/-- A user resource as returned by the destination listing
(`scim_client.list_all_users` yields raw dicts): the engine reads only
`id`, `externalId` and `userName` via `.get`, each possibly absent. -/
structure ScimUserRec where
  id : Option String := none
  externalId : Option String := none
  userName : Option String := none
  deriving Repr, DecidableEq

/-- A group resource as returned by the destination listing
(`scim_client.list_all_groups`): the engine reads `id` and `displayName`. -/
structure ScimGroupRec where
  id : Option String := none
  displayName : Option String := none
  deriving Repr, DecidableEq

/-! ## Settings (src/core/config.py) -/

/-- The fields declared on `config.Settings` (src/core/config.py, lines
8–39), in declaration order. Note that `sync_delete_groups` is NOT among
them, although `sync_service.py` reads `self.settings.sync_delete_groups`. -/
def settingsFieldNames : List String :=
  ["environment", "keycloak_url", "keycloak_realm", "keycloak_client_id",
   "keycloak_client_secret", "scim_endpoint_url", "scim_bearer_token",
   "scim_verify_ssl", "vcenter_name", "vcenter_name_attribute",
   "sync_interval_minutes", "sync_enabled", "sync_delete_users",
   "api_host", "api_port", "api_prefix", "log_level"]

/-- `config.Settings`: the fields the reconciliation engine reads. -/
structure Settings where
  keycloak_realm : String
  vcenter_name : Option String := none
  vcenter_name_attribute : String := "vcenter_name"
  sync_delete_users : Bool := false
  deriving Repr, DecidableEq

/-- Python attribute access for the boolean sync-delete switches. Pydantic
models raise `AttributeError` for attributes that are not declared fields;
`sync_delete_users` is the only delete switch declared in
`config.Settings` (see `settingsFieldNames`), so reading
`settings.sync_delete_groups` raises. -/
def Settings.getattrBool (s : Settings) (attr : String) : Except String Bool :=
  if attr = "sync_delete_users" then .ok s.sync_delete_users
  else .error ("AttributeError: 'Settings' object has no attribute '" ++ attr ++ "'")

/-- `Settings.extract_vcenter_name` (src/core/config.py, lines 45–60): if the
configured value is truthy keep it, otherwise fall back to the hostname
parsed from the SCIM endpoint URL, otherwise `None`. The URL parse is
abstracted as the optional `hostname` argument. -/
def extract_vcenter_name (v : Option String) (hostname : Option String) :
    Option String :=
  if truthy v then v
  else match hostname with
    | some h => some h
    | none => none

/-! ## Keycloak group filter (src/services/keycloak_client.py, get_groups) -/

/-- Attribute lookup on a group, mirroring
`group.attributes and attr in group.attributes` followed by
`group.attributes[attr]`. -/
def attrLookup (g : KeycloakGroup) (attr : String) : Option (List String) :=
  dictGet attr g.attributes

/-- The filter step of `KeycloakClient.get_groups` (lines 97–138): given the
already-fetched detailed group list, `if not filter_by_vcenter: return
all_groups`, else keep groups whose attribute list for
`vcenter_name_attribute` contains the filter value. -/
def kcGetGroups (attrName : String) (filterByVcenter : Option String)
    (allGroups : List KeycloakGroup) : List KeycloakGroup :=
  if truthy filterByVcenter = false then allGroups
  else
    allGroups.filter (fun g =>
      match attrLookup g attrName with
      | some vals => vals.contains (filterByVcenter.getD "")
      | none => false)

/-! ## Identity mapping (sync_service.py, converters) -/

/-- `SyncService._convert_keycloak_to_scim_user` (lines 35–47). -/
def convertKeycloakToScimUser (u : KeycloakUser) : ScimUser :=
  let first := u.firstName.getD ""
  let last := u.lastName.getD ""
  let dn := (first ++ " " ++ last).trim
  { externalId := u.id
    userName := u.username
    name := { givenName := first, familyName := last }
    displayName := if dn = "" then u.username else dn
    emails := match u.email with
      | some e => if e = "" then [] else [{ value := e }]
      | none => []
    active := u.enabled }

/-- `SyncService._convert_keycloak_to_scim_group` (lines 49–62): with a
parent the display name is `{realm}-{parent}-{sub}`; the no-parent fallback
produces `{realm}-{sub}` (the parent segment is dropped, no sentinel). -/
def convertKeycloakToScimGroup (realm : String) (g : KeycloakGroup)
    (parent : Option KeycloakGroup) (members : List String) : ScimGroup :=
  { externalId := g.id
    displayName := match parent with
      | some p => realm ++ "-" ++ p.name ++ "-" ++ g.name
      | none => realm ++ "-" ++ g.name
    members := members }

/-- The display name used for group correlation in `sync_groups` (line 324)
and `get_sync_preview` (line 121):
`f"{realm}-{parent_group.name if parent_group else 'unknown'}-{kc_group.name}"`. -/
def groupDisplayName (realm : String) (parent : Option KeycloakGroup)
    (g : KeycloakGroup) : String :=
  realm ++ "-" ++ (match parent with
    | some p => p.name
    | none => "unknown") ++ "-" ++ g.name

/-! ## Remote-system oracles and adapters -/

/-- The source directory, read-only per run. Each operation may fail with a
transport/auth exception (`.error`), mirroring the raising `KeycloakClient`
methods. `allTopGroups` is the outcome of the group fetch inside
`get_groups` (the network part, before the attribute filter). -/
structure KcOracle where
  allTopGroups : Except String (List KeycloakGroup)
  subgroups : String → Except String (List KeycloakGroup)
  members : String → Except String (List KeycloakUser)

/-- The destination adapter, threaded through a destination-side state `σ`.
Write outcomes are `Except String (Option α)`: `.error e` models a raised
exception, `.ok none` a falsy (`None`/`False`) return, `.ok (some x)` a
truthy return; `deleteUser`/`replaceGroupMembers`/`deleteGroup` return
booleans. The listings never raise: `scim_client.list_all_users` and
`list_all_groups` swallow every exception during pagination (see
`listAllUsersPaged` below) and plain HTTP errors yield empty pages. -/
structure ScimAdapter (σ : Type) where
  listAllUsers : σ → List ScimUserRec × σ
  listAllGroups : σ → List ScimGroupRec × σ
  createUser : ScimUser → σ → Except String (Option ScimUserRec) × σ
  updateUser : String → ScimUser → σ → Except String (Option ScimUserRec) × σ
  deleteUser : String → σ → Except String Bool × σ
  createGroup : ScimGroup → σ → Except String (Option ScimGroupRec) × σ
  replaceGroupMembers : String → List String → σ → Except String Bool × σ
  deleteGroup : String → σ → Except String Bool × σ

/-! ## Group filtering and expansion (sync_service.py, lines 64–97) -/

/-- The loop of `_get_filtered_groups_with_subgroups` (lines 74–84): for each
filtered parent group with `subGroupCount > 0`, fetch its subgroups, extend
the sync list and record the parent for every subgroup. -/
def collectSubgroups (kc : KcOracle) :
    List KeycloakGroup →
    List KeycloakGroup × List (String × KeycloakGroup) →
    Except String (List KeycloakGroup × List (String × KeycloakGroup))
  | [], acc => .ok acc
  | p :: ps, acc =>
    if 0 < p.subGroupCount then
      match kc.subgroups p.id with
      | .error e => .error e
      | .ok subs =>
          collectSubgroups kc ps
            (acc.1 ++ subs, subs.foldl (fun m sg => dictInsert sg.id p m) acc.2)
    else collectSubgroups kc ps acc

/-- `SyncService._get_filtered_groups_with_subgroups` (lines 64–85): returns
the synced group list (subgroups only) and the parent map. -/
def getFilteredGroupsWithSubgroups (s : Settings) (kc : KcOracle) :
    Except String (List KeycloakGroup × List (String × KeycloakGroup)) :=
  match kc.allTopGroups with
  | .error e => .error e
  | .ok allg =>
      collectSubgroups kc
        (kcGetGroups s.vcenter_name_attribute s.vcenter_name allg) ([], [])

/-- The loop of `_get_users_from_groups` (lines 91–95): accumulate members
into a dict keyed by user id (last record wins, first position kept). -/
def collectGroupUsers (kc : KcOracle) :
    List KeycloakGroup → List (String × KeycloakUser) →
    Except String (List (String × KeycloakUser))
  | [], acc => .ok acc
  | g :: gs, acc =>
    match kc.members g.id with
    | .error e => .error e
    | .ok ms => collectGroupUsers kc gs (ms.foldl (fun m u => dictInsert u.id u m) acc)

/-- `SyncService._get_users_from_groups` (lines 87–97). -/
def getUsersFromGroups (kc : KcOracle) (groups : List KeycloakGroup) :
    Except String (List KeycloakUser) :=
  match collectGroupUsers kc groups [] with
  | .error e => .error e
  | .ok m => .ok (dictValues m)

/-- The source-side fetch stage of `sync_users` (lines 204–212): filtered
subgroups plus parent-map values feed the unique-user aggregation. -/
def fetchSyncUsersInput (s : Settings) (kc : KcOracle) :
    Except String (List KeycloakUser) :=
  match getFilteredGroupsWithSubgroups s kc with
  | .error e => .error e
  | .ok (gs, pm) => getUsersFromGroups kc (gs ++ dictValues pm)

/-! ## SyncResult and call traces -/

/-- `self.sync_stats` (sync_service.py, lines 17–24): the per-run SyncResult
counters and ordered error list. -/
structure SyncStats where
  users_created : Nat := 0
  users_updated : Nat := 0
  users_deleted : Nat := 0
  groups_created : Nat := 0
  groups_deleted : Nat := 0
  errors : List String := []
  deriving Repr, DecidableEq

/-- Observation of the adapter calls a phase issues, in order per call kind.
Each entry is appended exactly where the Python code awaits the
corresponding `scim_client` coroutine. -/
structure Trace where
  createUserCalls : List ScimUser := []
  updateUserCalls : List (String × ScimUser) := []
  deleteUserCalls : List String := []
  createGroupCalls : List ScimGroup := []
  replaceMembersCalls : List (String × List String) := []
  deleteGroupCalls : List String := []
  deriving Repr, DecidableEq

/-- Accumulator for a phase: stats, issued calls, destination state. -/
structure PhaseAcc (σ : Type) where
  stats : SyncStats
  trace : Trace
  st : σ

/-! ## User sync (sync_service.py, lines 192–291) -/

/-- Push an error string onto the stats, mirroring
`self.sync_stats["errors"].append(...)`. -/
def SyncStats.addError (st : SyncStats) (e : String) : SyncStats :=
  { st with errors := st.errors ++ [e] }

/-- Body of the per-user loop of `sync_users` (lines 221–257): conflict
skip, conditional update, or create; per-user exceptions are recorded and
do not abort the loop. -/
def syncUserOne {σ : Type} (ad : ScimAdapter σ)
    (existingMap : List (Option String × ScimUserRec))
    (a : PhaseAcc σ) (u : KeycloakUser) : PhaseAcc σ :=
  let scimUser := convertKeycloakToScimUser u
  match dictGet (some u.username) existingMap with
  | some ex =>
    -- `if existing_external_id != kc_user.id: ... continue` (log-only skip)
    if ex.externalId ≠ some u.id then a
    else if truthy ex.id then
      let uid := ex.id.getD ""
      let su := { scimUser with id := some uid }
      let (r, st2) := ad.updateUser uid su a.st
      let a2 : PhaseAcc σ :=
        { a with st := st2,
                 trace := { a.trace with
                   updateUserCalls := a.trace.updateUserCalls ++ [(uid, su)] } }
      match r with
      | .ok (some _) =>
          { a2 with stats :=
              { a2.stats with users_updated := a2.stats.users_updated + 1 } }
      | .ok none =>
          { a2 with stats := a2.stats.addError ("Failed to update user " ++ u.username) }
      | .error e =>
          { a2 with stats :=
              a2.stats.addError ("Error syncing user " ++ u.username ++ ": " ++ e) }
    else a
  | none =>
    let (r, st2) := ad.createUser scimUser a.st
    let a2 : PhaseAcc σ :=
      { a with st := st2,
               trace := { a.trace with
                 createUserCalls := a.trace.createUserCalls ++ [scimUser] } }
    match r with
    | .ok (some _) =>
        { a2 with stats :=
            { a2.stats with users_created := a2.stats.users_created + 1 } }
    | .ok none =>
        { a2 with stats := a2.stats.addError ("Failed to create user " ++ u.username) }
    | .error e =>
        { a2 with stats :=
            a2.stats.addError ("Error syncing user " ++ u.username ++ ": " ++ e) }

/-- `scim_username not in kc_usernames`, negated: membership of the map key
in the eligible username set (Python's `None` is never in a set of
strings). -/
def keyInUsernames (k : Option String) (names : List String) : Bool :=
  match k with
  | some n => names.contains n
  | none => false

/-- Body of the deletion loop of `sync_users` (lines 260–276): delete every
snapshot user whose username is not eligible and whose id is truthy;
failures and exceptions are recorded per user. -/
def deleteUserOne {σ : Type} (ad : ScimAdapter σ) (kcUsernames : List String)
    (a : PhaseAcc σ) (p : Option String × ScimUserRec) : PhaseAcc σ :=
  if keyInUsernames p.1 kcUsernames then a
  else if truthy p.2.id then
    let uid := p.2.id.getD ""
    let uname := p.1.getD "None"
    let (r, st2) := ad.deleteUser uid a.st
    let a2 : PhaseAcc σ :=
      { a with st := st2,
               trace := { a.trace with
                 deleteUserCalls := a.trace.deleteUserCalls ++ [uid] } }
    match r with
    | .ok true =>
        { a2 with stats :=
            { a2.stats with users_deleted := a2.stats.users_deleted + 1 } }
    | .ok false =>
        { a2 with stats := a2.stats.addError ("Failed to delete user " ++ uname) }
    | .error e =>
        { a2 with stats :=
            a2.stats.addError ("Error deleting user " ++ uname ++ ": " ++ e) }
  else a

/-- `SyncService.sync_users` (lines 192–291). The incoming stats are
discarded: the phase resets `self.sync_stats` first (lines 194–201). A
source-side fetch failure aborts the phase with a single
`"Sync failed: ..."` error; the destination listing cannot raise. -/
def syncUsers {σ : Type} (s : Settings) (kc : KcOracle) (ad : ScimAdapter σ)
    (_stats0 : SyncStats) (x : σ) : PhaseAcc σ :=
  let a0 : PhaseAcc σ := { stats := {}, trace := {}, st := x }
  match fetchSyncUsersInput s kc with
  | .error e => { a0 with stats := a0.stats.addError ("Sync failed: " ++ e) }
  | .ok kcUsers =>
    let (existingList, x1) := ad.listAllUsers a0.st
    let existingMap := dictOfList (·.userName) existingList
    let a1 := kcUsers.foldl (syncUserOne ad existingMap) { a0 with st := x1 }
    if s.sync_delete_users then
      existingMap.foldl (deleteUserOne ad (kcUsers.map (·.username))) a1
    else a1

/-! ## Group sync (sync_service.py, lines 293–406) -/

/-- Accumulator for the per-group loop: the phase accumulator plus the
`synced_group_names` set (line 318). -/
structure GroupAcc (σ : Type) where
  stats : SyncStats
  trace : Trace
  syncedNames : List String
  st : σ

/-- `kc_to_scim_user_map` (lines 310–315): map truthy externalId to truthy
SCIM id over the destination user listing, ordinary dict assignment. -/
def buildUserIdMap (users : List ScimUserRec) : List (String × String) :=
  users.foldl (fun m u =>
    if truthy u.externalId && truthy u.id then
      dictInsert (u.externalId.getD "") (u.id.getD "") m
    else m) []

/-- Membership update for one group (lines 344–363): fetch the source
members, map each to its SCIM id (dropping unmapped members with a warning
only), and issue a full membership replacement. Runs only for a truthy
group id; a members-fetch exception is caught by the per-group handler. -/
def syncGroupMembership {σ : Type} (kc : KcOracle) (ad : ScimAdapter σ)
    (userIdMap : List (String × String)) (g : KeycloakGroup) (dn : String)
    (gid? : Option String) (acc : GroupAcc σ) : GroupAcc σ :=
  if truthy gid? then
    let gid := gid?.getD ""
    match kc.members g.id with
    | .error e =>
        { acc with stats :=
            acc.stats.addError ("Error syncing group " ++ g.name ++ ": " ++ e) }
    | .ok kcMembers =>
      let scimMemberIds := kcMembers.filterMap (fun m => dictGet m.id userIdMap)
      let (r, st2) := ad.replaceGroupMembers gid scimMemberIds acc.st
      let acc2 : GroupAcc σ :=
        { acc with st := st2,
                   trace := { acc.trace with
                     replaceMembersCalls :=
                       acc.trace.replaceMembersCalls ++ [(gid, scimMemberIds)] } }
      match r with
      | .ok true => acc2
      | .ok false =>
          { acc2 with stats :=
              acc2.stats.addError ("Failed to update members for group " ++ dn) }
      | .error e =>
          { acc2 with stats :=
              acc2.stats.addError ("Error syncing group " ++ g.name ++ ": " ++ e) }
  else acc

/-- Body of the per-group loop of `sync_groups` (lines 321–368): compute the
correlation display name, record it as synced, reuse the existing
destination group or create one (continuing to the next group on a create
failure), then replace its membership. -/
def syncGroupOne {σ : Type} (realm : String) (kc : KcOracle) (ad : ScimAdapter σ)
    (parentMap : List (String × KeycloakGroup))
    (existingGroupsMap : List (Option String × ScimGroupRec))
    (userIdMap : List (String × String))
    (acc : GroupAcc σ) (g : KeycloakGroup) : GroupAcc σ :=
  let parent := dictGet g.id parentMap
  let dn := groupDisplayName realm parent g
  let acc1 : GroupAcc σ := { acc with syncedNames := acc.syncedNames ++ [dn] }
  match dictGet (some dn) existingGroupsMap with
  | some eg => syncGroupMembership kc ad userIdMap g dn eg.id acc1
  | none =>
    let sg := convertKeycloakToScimGroup realm g parent []
    let (r, st2) := ad.createGroup sg acc1.st
    let acc2 : GroupAcc σ :=
      { acc1 with st := st2,
                  trace := { acc1.trace with
                    createGroupCalls := acc1.trace.createGroupCalls ++ [sg] } }
    match r with
    | .ok (some res) =>
        syncGroupMembership kc ad userIdMap g dn res.id
          { acc2 with stats :=
              { acc2.stats with groups_created := acc2.stats.groups_created + 1 } }
    | .ok none =>
        { acc2 with stats := acc2.stats.addError ("Failed to create group " ++ dn) }
    | .error e =>
        { acc2 with stats :=
            acc2.stats.addError ("Error syncing group " ++ g.name ++ ": " ++ e) }

/-- Body of the group-deletion loop (lines 375–392): delete destination
groups whose display name carries the realm prefix but was not synced this
run. Unreachable with the shipped `Settings` (see `syncGroups`): reading
the gate raises first. A `None` display name, which would itself raise in
Python, is rendered as `""` here. -/
def deleteGroupOne {σ : Type} (realmPref : String) (syncedNames : List String)
    (ad : ScimAdapter σ) (a : PhaseAcc σ)
    (p : Option String × ScimGroupRec) : PhaseAcc σ :=
  let dn := p.1.getD ""
  if dn.startsWith realmPref && !(syncedNames.contains dn) then
    if truthy p.2.id then
      let gid := p.2.id.getD ""
      let (r, st2) := ad.deleteGroup gid a.st
      let a2 : PhaseAcc σ :=
        { a with st := st2,
                 trace := { a.trace with
                   deleteGroupCalls := a.trace.deleteGroupCalls ++ [gid] } }
      match r with
      | .ok true =>
          { a2 with stats :=
              { a2.stats with groups_deleted := a2.stats.groups_deleted + 1 } }
      | .ok false =>
          { a2 with stats := a2.stats.addError ("Failed to delete group " ++ dn) }
      | .error e =>
          { a2 with stats :=
              a2.stats.addError ("Error deleting group " ++ dn ++ ": " ++ e) }
    else a
  else a

/-- `SyncService.sync_groups` (lines 293–406). Unlike `sync_users` the
incoming stats are NOT reset: the phase accumulates onto them. After the
per-group loop the code evaluates `if self.settings.sync_delete_groups:`
(line 371); `config.Settings` declares no such field, so the attribute read
raises and the outer handler appends `"Group sync failed: ..."` — the
deletion/log-only branches are unreachable. -/
def syncGroups {σ : Type} (s : Settings) (kc : KcOracle) (ad : ScimAdapter σ)
    (stats0 : SyncStats) (x : σ) : PhaseAcc σ :=
  match getFilteredGroupsWithSubgroups s kc with
  | .error e =>
      { stats := stats0.addError ("Group sync failed: " ++ e), trace := {}, st := x }
  | .ok (kcGroups, parentMap) =>
    let (existingGroupsList, x1) := ad.listAllGroups x
    let (scimUsers, x2) := ad.listAllUsers x1
    let existingGroupsMap := dictOfList (·.displayName) existingGroupsList
    let userIdMap := buildUserIdMap scimUsers
    let g0 : GroupAcc σ := { stats := stats0, trace := {}, syncedNames := [], st := x2 }
    let g1 := kcGroups.foldl
      (syncGroupOne s.keycloak_realm kc ad parentMap existingGroupsMap userIdMap) g0
    match s.getattrBool "sync_delete_groups" with
    | .ok b =>
      -- dead with the shipped Settings: getattrBool "sync_delete_groups" errors
      if b then
        let realmPref := s.keycloak_realm ++ "-"
        existingGroupsMap.foldl (deleteGroupOne realmPref g1.syncedNames ad)
          { stats := g1.stats, trace := g1.trace, st := g1.st }
      else { stats := g1.stats, trace := g1.trace, st := g1.st }
    | .error e =>
      { stats := g1.stats.addError ("Group sync failed: " ++ e),
        trace := g1.trace, st := g1.st }

/-! ## Full sync (sync_service.py, lines 408–414) -/

/-- Result of a full run: the final stats object (as returned by the group
phase, which shares `self.sync_stats` with the user phase), both phases'
call traces, and the final destination state. -/
structure FullResult (σ : Type) where
  stats : SyncStats
  usersTrace : Trace
  groupsTrace : Trace
  st : σ

/-- `SyncService.full_sync` (lines 408–414): `sync_users` then
`sync_groups`, sequentially, the group phase receiving the stats object the
user phase left behind. -/
def fullSync {σ : Type} (s : Settings) (kc : KcOracle) (ad : ScimAdapter σ)
    (stats0 : SyncStats) (x : σ) : FullResult σ :=
  let au := syncUsers s kc ad stats0 x
  let ag := syncGroups s kc ad au.stats au.st
  { stats := ag.stats, usersTrace := au.trace, groupsTrace := ag.trace, st := ag.st }

/-! ## Paginated destination listing (scim_client.py, lines 105–147) -/

/-- `ScimListResponse` as consumed by the pagination loop. -/
structure ScimListResponse where
  totalResults : Nat
  Resources : List ScimUserRec
  deriving Repr, DecidableEq

/-- Outcome of one page request, as `ScimClient.list_users` sees it. -/
inductive PageOutcome where
  /-- 2xx response. -/
  | ok (r : ScimListResponse)
  /-- Non-2xx status (e.g. 401 auth failure): `raise_for_status` raises
  `HTTPStatusError`, which `list_users` catches, returning an empty
  response. -/
  | httpError
  /-- Transport failure (connect/timeout): not an `HTTPStatusError`, so it
  propagates out of `list_users`. -/
  | transportError (e : String)
  deriving Repr, DecidableEq

/-- `ScimClient.list_users` (lines 105–120): catches HTTP status errors and
returns an empty list response; transport errors propagate. -/
def listUsersPage (p : PageOutcome) : Except String ScimListResponse :=
  match p with
  | .ok r => .ok r
  | .httpError => .ok { totalResults := 0, Resources := [] }
  | .transportError e => .error e

/-- The `while True` pagination loop of `ScimClient.list_all_users`
(lines 122–147), fuel-bounded: any exception from `list_users` is caught
and the loop breaks, returning the users collected so far — nothing is
recorded and nothing propagates. -/
def listAllUsersPaged (pages : Nat → PageOutcome) :
    Nat → Nat → List ScimUserRec → List ScimUserRec
  | 0, _, collected => collected
  | fuel + 1, startIndex, collected =>
    match listUsersPage (pages startIndex) with
    | .error _ => collected
    | .ok resp =>
      let collected2 := collected ++ resp.Resources
      if resp.totalResults < startIndex + resp.Resources.length then collected2
      else if resp.Resources.length < 100 then collected2
      else listAllUsersPaged pages fuel (startIndex + 100) collected2

/-! ## A deterministic, always-healthy destination

An instance of the Destination Adapter contract (spec §6): listings return
the full resource sets, writes always succeed, ids are assigned from a
counter. Used to state run-to-run properties of the engine. Only the
fields the engine reads back (`id`, `externalId`, `userName`,
`displayName`) are kept in the state; a membership replace therefore leaves
the modelled state unchanged. -/

/-- Destination-side state for the deterministic adapter. -/
structure DestState where
  users : List ScimUserRec
  groups : List ScimGroupRec
  nextUid : Nat := 0
  nextGid : Nat := 0
  deriving Repr, DecidableEq

/-- Id assigned to the `n`-th user created by the deterministic adapter. -/
def genUid (n : Nat) : String := "new-user-" ++ toString n

/-- Id assigned to the `n`-th group created by the deterministic adapter. -/
def genGid (n : Nat) : String := "new-group-" ++ toString n

/-- The deterministic destination adapter. `createUser` stores the payload's
`externalId` and `userName` under a fresh id; `updateUser` (a SCIM PUT whose
payload omits `externalId`, see `ScimUser.to_scim_payload`) rewrites the
user's name fields and keeps id and externalId; deletes remove by id. -/
def idealAdapter : ScimAdapter DestState where
  listAllUsers d := (d.users, d)
  listAllGroups d := (d.groups, d)
  createUser u d :=
    let r0 : ScimUserRec :=
      { id := some (genUid d.nextUid), externalId := some u.externalId,
        userName := some u.userName }
    (.ok (some r0), { d with users := d.users ++ [r0], nextUid := d.nextUid + 1 })
  updateUser uid u d :=
    (.ok (some { id := some uid, externalId := none, userName := some u.userName }),
     { d with users := d.users.map (fun r =>
         if r.id = some uid then { r with userName := some u.userName } else r) })
  deleteUser uid d :=
    (.ok true, { d with users := d.users.filter (fun r => r.id ≠ some uid) })
  createGroup g d :=
    let r0 : ScimGroupRec := { id := some (genGid d.nextGid), displayName := some g.displayName }
    (.ok (some r0), { d with groups := d.groups ++ [r0], nextGid := d.nextGid + 1 })
  replaceGroupMembers _ _ d := (.ok true, d)
  deleteGroup gid d :=
    (.ok true, { d with groups := d.groups.filter (fun r => r.id ≠ some gid) })

/-- One full reconciliation run against the deterministic destination,
started with a fresh stats object (every caller in `routes.py` and
`scheduler.py` constructs a fresh `SyncService`). -/
def runFull (s : Settings) (kc : KcOracle) (d : DestState) : SyncStats × DestState :=
  let r := fullSync s kc idealAdapter {} d
  (r.stats, r.st)

/-- No user record of the listing carries an id the deterministic adapter
could generate — ids already on the destination never collide with freshly
assigned ones. -/
def GenFresh (us : List ScimUserRec) : Prop :=
  ∀ r ∈ us, ∀ n : Nat, r.id ≠ some (genUid n)

/-! ## Concrete fixtures

A small realm used for witnesses and counterexamples: top-level group `eng`
(attribute `vcenter_name = ["v1"]`) with subgroup `admins`, whose only
member is `bob`. -/

/-- The user `bob`. -/
def bob : KeycloakUser :=
  { id := "u1", username := "bob", email := some "bob@x.io" }

/-- Subgroup `admins` of `eng`. -/
def adminsGroup : KeycloakGroup :=
  { id := "g1", name := "admins", path := "/eng/admins" }

/-- Filtered top-level group `eng`. -/
def engGroup : KeycloakGroup :=
  { id := "p1", name := "eng", path := "/eng",
    attributes := [("vcenter_name", ["v1"])], subGroupCount := 1 }

/-- Source oracle for the fixture realm. -/
def kcFix : KcOracle :=
  { allTopGroups := .ok [engGroup]
    subgroups := fun gid => if gid = "p1" then .ok [adminsGroup] else .ok []
    members := fun gid => if gid = "g1" then .ok [bob] else .ok [] }

/-- Settings for the fixture: realm `REALM`, filter `v1`, user deletion
enabled. -/
def sFix : Settings :=
  { keycloak_realm := "REALM", vcenter_name := some "v1",
    sync_delete_users := true }

/-! ## Auxiliary definitions: step relations, fixtures and derived sets -/

/-- What a step of the per-user loop of `sync_users` preserves or merely
extends. -/
def UStep {σ : Type} (a b : PhaseAcc σ) : Prop :=
  b.stats.users_deleted = a.stats.users_deleted ∧
  b.stats.groups_created = a.stats.groups_created ∧
  b.stats.groups_deleted = a.stats.groups_deleted ∧
  b.trace.deleteUserCalls = a.trace.deleteUserCalls ∧
  b.trace.createGroupCalls = a.trace.createGroupCalls ∧
  b.trace.replaceMembersCalls = a.trace.replaceMembersCalls ∧
  b.trace.deleteGroupCalls = a.trace.deleteGroupCalls ∧
  (∃ tl, b.stats.errors = a.stats.errors ++ tl)

/-- What a step of the deletion loop of `sync_users` preserves or extends. -/
def DStep {σ : Type} (a b : PhaseAcc σ) : Prop :=
  b.stats.users_created = a.stats.users_created ∧
  b.stats.users_updated = a.stats.users_updated ∧
  b.stats.groups_created = a.stats.groups_created ∧
  b.stats.groups_deleted = a.stats.groups_deleted ∧
  b.trace.createUserCalls = a.trace.createUserCalls ∧
  b.trace.updateUserCalls = a.trace.updateUserCalls ∧
  b.trace.createGroupCalls = a.trace.createGroupCalls ∧
  b.trace.replaceMembersCalls = a.trace.replaceMembersCalls ∧
  b.trace.deleteGroupCalls = a.trace.deleteGroupCalls ∧
  (∃ tl, b.trace.deleteUserCalls = a.trace.deleteUserCalls ++ tl) ∧
  (∃ tl, b.stats.errors = a.stats.errors ++ tl)

/-- What a step of the per-group loop of `sync_groups` preserves or
extends. -/
def GStep {σ : Type} (a b : GroupAcc σ) : Prop :=
  b.stats.users_created = a.stats.users_created ∧
  b.stats.users_updated = a.stats.users_updated ∧
  b.stats.users_deleted = a.stats.users_deleted ∧
  b.stats.groups_deleted = a.stats.groups_deleted ∧
  b.trace.createUserCalls = a.trace.createUserCalls ∧
  b.trace.updateUserCalls = a.trace.updateUserCalls ∧
  b.trace.deleteUserCalls = a.trace.deleteUserCalls ∧
  b.trace.deleteGroupCalls = a.trace.deleteGroupCalls ∧
  (∃ tl, b.stats.errors = a.stats.errors ++ tl)

/-- The error string the outer handler of `sync_groups` records when the
deletion gate reads the undeclared `sync_delete_groups` attribute. -/
def attrErrMsg : String :=
  "Group sync failed: AttributeError: 'Settings' object has no attribute 'sync_delete_groups'"

/-- Empty destination, used by concrete runs. -/
def dFix : DestState := { users := [], groups := [] }

/-- The stale destination user for the deletion witness: created by some
other agent (externalId `zzz`), username not in any filtered source
group. -/
def carolRec : ScimUserRec :=
  { id := some "crud", externalId := some "zzz", userName := some "carol" }

/-- Destination holding only the stale user `carol`. -/
def dStale : DestState := { users := [carolRec], groups := [] }

/-- Destination user `bob` owned by someone else: same username as the
source user, different externalId. -/
def bobConfRec : ScimUserRec :=
  { id := some "s1", externalId := some "other-id", userName := some "bob" }

/-- Destination holding only the conflicting `bob`. -/
def dConf : DestState := { users := [bobConfRec], groups := [] }

/-- A destination whose every page request fails at the transport level. -/
def pagesDown : Nat → PageOutcome := fun _ => .transportError "connection refused"

/-- A destination adapter that is entirely unreachable: the listing is the
paginated loop run against `pagesDown` (which swallows the failure), and
every write raises. -/
def scimDown : ScimAdapter Unit where
  listAllUsers := fun u => (listAllUsersPaged pagesDown 10 1 [], u)
  listAllGroups := fun u => ([], u)
  createUser := fun _ u => (.error "connection refused", u)
  updateUser := fun _ _ u => (.error "connection refused", u)
  deleteUser := fun _ u => (.error "connection refused", u)
  createGroup := fun _ u => (.error "connection refused", u)
  replaceGroupMembers := fun _ _ u => (.error "connection refused", u)
  deleteGroup := fun _ u => (.error "connection refused", u)

/-- The fixture realm with `admins` empty (no members anywhere). -/
def kcNoMembers : KcOracle :=
  { allTopGroups := .ok [engGroup]
    subgroups := fun gid => if gid = "p1" then .ok [adminsGroup] else .ok []
    members := fun _ => .ok [] }

/-- A source directory that cannot be reached at all. -/
def kcDown : KcOracle :=
  { allTopGroups := .error "conn refused"
    subgroups := fun _ => .error "conn refused"
    members := fun _ => .error "conn refused" }

/-- The filtered parent `eng` carrying `vcenter_name = v1` but no
subgroups. -/
def engGroupNoSubs : KeycloakGroup :=
  { id := "p1", name := "eng", path := "/eng",
    attributes := [("vcenter_name", ["v1"])], subGroupCount := 0 }

/-- Source oracle where the only filtered group has zero subgroups yet a
member, `bob`. -/
def kcZero : KcOracle :=
  { allTopGroups := .ok [engGroupNoSubs]
    subgroups := fun _ => .ok []
    members := fun gid => if gid = "p1" then .ok [bob] else .ok [] }

/-- The ids the deletion loop of `sync_users` deletes: entries of the
snapshot map whose username is not eligible and whose id is truthy. -/
def delIds (ns : List String)
    (entries : List (Option String × ScimUserRec)) : List String :=
  entries.filterMap (fun p =>
    if keyInUsernames p.1 ns then none
    else if truthy p.2.id then some (p.2.id.getD "") else none)

/-- The record the deterministic adapter stores for a created user. -/
def createdRec (u : KeycloakUser) (n : Nat) : ScimUserRec :=
  { id := some (genUid n), externalId := some u.id,
    userName := some u.username }

def createdGroupRec (dn : String) (n : Nat) : ScimGroupRec :=
  { id := some (genGid n), displayName := some dn }

/-! ## Basic lemmas -/

@[simp]
theorem addError_users_created (st : SyncStats) (e : String) :
    (st.addError e).users_created = st.users_created := rfl

@[simp]
theorem addError_users_updated (st : SyncStats) (e : String) :
    (st.addError e).users_updated = st.users_updated := rfl

@[simp]
theorem addError_users_deleted (st : SyncStats) (e : String) :
    (st.addError e).users_deleted = st.users_deleted := rfl

@[simp]
theorem addError_groups_created (st : SyncStats) (e : String) :
    (st.addError e).groups_created = st.groups_created := rfl

@[simp]
theorem addError_groups_deleted (st : SyncStats) (e : String) :
    (st.addError e).groups_deleted = st.groups_deleted := rfl

@[simp]
theorem addError_errors (st : SyncStats) (e : String) :
    (st.addError e).errors = st.errors ++ [e] := rfl

end KVS

namespace KVS

/-! ## C3 — behaviour of the group selection on an unset filter -/

/-- Claim C3, refuted: with the filter unset (`None`), the selection step
does NOT select "no groups" — on the fixture's one-group realm it returns
the whole group set, which is nonempty. -/
theorem C3_unset_filter_counterexample :
    kcGetGroups "vcenter_name" none [engGroup] = [engGroup] ∧
      [engGroup] ≠ ([] : List KeycloakGroup) := by
  constructor
  · rfl
  · simp

/-- Claim C3, amended: when the configured filter value is unset (`None`) or
empty (`""`), `KeycloakClient.get_groups` returns the entire fetched group
set unfiltered — the selection behaves as "all groups", not "no groups". -/
theorem C3_unset_filter_selects_all (attrName : String)
    (gs : List KeycloakGroup) :
    kcGetGroups attrName none gs = gs ∧ kcGetGroups attrName (some "") gs = gs := by
  constructor <;> rfl

/-! ## C7 — canonical destination group naming -/

/-- Claim C7, refuted: for a subgroup with no recorded parent the creation
payload built by `_convert_keycloak_to_scim_group` names the group
`REALM-admins`, not the claimed `REALM-unknown-admins`; only the
correlation name of `sync_groups` uses the `unknown` sentinel, so
correlation and creation disagree in that case. -/
theorem C7_no_parent_name_counterexample :
    (convertKeycloakToScimGroup "REALM" adminsGroup none []).displayName
        = "REALM-admins" ∧
      groupDisplayName "REALM" none adminsGroup = "REALM-unknown-admins" ∧
      ("REALM-admins" : String) ≠ "REALM-unknown-admins" := by
  refine ⟨rfl, rfl, by decide⟩

/-- Claim C7, amended: the name is a pure function of realm, parent and
subgroup. With a recorded parent, correlation and creation both use
`{realm}-{parent}-{sub}`. With no recorded parent the run does not fail,
but the two sites disagree: the correlation name substitutes the literal
sentinel `unknown`, while the creation payload drops the parent segment and
uses `{realm}-{sub}`. -/
theorem C7_group_naming (realm : String) (p : KeycloakGroup)
    (g : KeycloakGroup) (ms : List String) :
    (groupDisplayName realm (some p) g = realm ++ "-" ++ p.name ++ "-" ++ g.name ∧
      (convertKeycloakToScimGroup realm g (some p) ms).displayName
        = groupDisplayName realm (some p) g) ∧
    (groupDisplayName realm none g = realm ++ "-" ++ "unknown" ++ "-" ++ g.name ∧
      (convertKeycloakToScimGroup realm g none ms).displayName
        = realm ++ "-" ++ g.name) := by
  exact ⟨⟨rfl, rfl⟩, ⟨rfl, rfl⟩⟩

/-! ## Step-effect lemmas

Each loop body of the engine only ever increments its own counters, appends
its own call kinds and appends error strings; these lemmas record what each
step preserves, and a generic fold lemma lifts them to whole loops. -/

theorem foldl_rel {α β : Type} {R : β → β → Prop} (hrefl : ∀ b, R b b)
    (htrans : ∀ {x y z}, R x y → R y z → R x z) (f : β → α → β)
    (hstep : ∀ b a, R b (f b a)) :
    ∀ (l : List α) (b : β), R b (l.foldl f b)
  | [], b => hrefl b
  | a :: l, b => htrans (hstep b a) (foldl_rel hrefl htrans f hstep l (f b a))

theorem ustep_refl {σ : Type} (a : PhaseAcc σ) : UStep a a :=
  ⟨rfl, rfl, rfl, rfl, rfl, rfl, rfl, [], by simp⟩

theorem ustep_trans {σ : Type} {a b c : PhaseAcc σ} (h1 : UStep a b)
    (h2 : UStep b c) : UStep a c := by
  obtain ⟨e1, e2, e3, e4, e5, e6, e7, t1, ht1⟩ := h1
  obtain ⟨f1, f2, f3, f4, f5, f6, f7, t2, ht2⟩ := h2
  exact ⟨f1.trans e1, f2.trans e2, f3.trans e3, f4.trans e4, f5.trans e5,
    f6.trans e6, f7.trans e7, t1 ++ t2, by simp [ht2, ht1]⟩

theorem syncUserOne_ustep {σ : Type} (ad : ScimAdapter σ)
    (m : List (Option String × ScimUserRec)) (a : PhaseAcc σ)
    (u : KeycloakUser) : UStep a (syncUserOne ad m a u) := by
  simp only [syncUserOne]
  repeat' split
  all_goals
    refine ⟨rfl, rfl, rfl, rfl, rfl, rfl, rfl, ?_⟩
  all_goals first
    | exact ⟨_, rfl⟩
    | exact ⟨[], by simp⟩

theorem userLoop_ustep {σ : Type} (ad : ScimAdapter σ)
    (m : List (Option String × ScimUserRec)) (us : List KeycloakUser)
    (a : PhaseAcc σ) : UStep a (us.foldl (syncUserOne ad m) a) :=
  foldl_rel ustep_refl ustep_trans _ (syncUserOne_ustep ad m) us a

theorem dstep_refl {σ : Type} (a : PhaseAcc σ) : DStep a a :=
  ⟨rfl, rfl, rfl, rfl, rfl, rfl, rfl, rfl, rfl, ⟨[], by simp⟩, ⟨[], by simp⟩⟩

theorem dstep_trans {σ : Type} {a b c : PhaseAcc σ} (h1 : DStep a b)
    (h2 : DStep b c) : DStep a c := by
  obtain ⟨e1, e2, e3, e4, e5, e6, e7, e8, e9, ⟨t1, ht1⟩, ⟨t2, ht2⟩⟩ := h1
  obtain ⟨f1, f2, f3, f4, f5, f6, f7, f8, f9, ⟨w1, hw1⟩, ⟨w2, hw2⟩⟩ := h2
  exact ⟨f1.trans e1, f2.trans e2, f3.trans e3, f4.trans e4, f5.trans e5,
    f6.trans e6, f7.trans e7, f8.trans e8, f9.trans e9,
    ⟨t1 ++ w1, by simp [hw1, ht1]⟩, ⟨t2 ++ w2, by simp [hw2, ht2]⟩⟩

theorem deleteUserOne_dstep {σ : Type} (ad : ScimAdapter σ)
    (kcUsernames : List String) (a : PhaseAcc σ)
    (p : Option String × ScimUserRec) :
    DStep a (deleteUserOne ad kcUsernames a p) := by
  simp only [deleteUserOne]
  repeat' split
  all_goals
    refine ⟨rfl, rfl, rfl, rfl, rfl, rfl, rfl, rfl, rfl, ?_, ?_⟩
  all_goals first
    | exact ⟨_, rfl⟩
    | exact ⟨[], by simp⟩

theorem deletePass_dstep {σ : Type} (ad : ScimAdapter σ)
    (kcUsernames : List String)
    (entries : List (Option String × ScimUserRec)) (a : PhaseAcc σ) :
    DStep a (entries.foldl (deleteUserOne ad kcUsernames) a) :=
  foldl_rel dstep_refl dstep_trans _ (deleteUserOne_dstep ad kcUsernames)
    entries a

theorem gstep_refl {σ : Type} (a : GroupAcc σ) : GStep a a :=
  ⟨rfl, rfl, rfl, rfl, rfl, rfl, rfl, rfl, ⟨[], by simp⟩⟩

theorem gstep_trans {σ : Type} {a b c : GroupAcc σ} (h1 : GStep a b)
    (h2 : GStep b c) : GStep a c := by
  obtain ⟨e1, e2, e3, e4, e5, e6, e7, e8, ⟨t1, ht1⟩⟩ := h1
  obtain ⟨f1, f2, f3, f4, f5, f6, f7, f8, ⟨t2, ht2⟩⟩ := h2
  exact ⟨f1.trans e1, f2.trans e2, f3.trans e3, f4.trans e4, f5.trans e5,
    f6.trans e6, f7.trans e7, f8.trans e8, ⟨t1 ++ t2, by simp [ht2, ht1]⟩⟩

theorem syncGroupMembership_gstep {σ : Type} (kc : KcOracle)
    (ad : ScimAdapter σ) (uim : List (String × String)) (g : KeycloakGroup)
    (dn : String) (gid? : Option String) (acc : GroupAcc σ) :
    GStep acc (syncGroupMembership kc ad uim g dn gid? acc) := by
  simp only [syncGroupMembership]
  repeat' split
  all_goals
    refine ⟨rfl, rfl, rfl, rfl, rfl, rfl, rfl, rfl, ?_⟩
  all_goals first
    | exact ⟨_, rfl⟩
    | exact ⟨[], by simp⟩

theorem syncGroupOne_gstep {σ : Type} (realm : String) (kc : KcOracle)
    (ad : ScimAdapter σ) (pm : List (String × KeycloakGroup))
    (egm : List (Option String × ScimGroupRec))
    (uim : List (String × String)) (acc : GroupAcc σ) (g : KeycloakGroup) :
    GStep acc (syncGroupOne realm kc ad pm egm uim acc g) := by
  simp only [syncGroupOne]
  repeat' split
  all_goals first
    | exact gstep_trans ⟨rfl, rfl, rfl, rfl, rfl, rfl, rfl, rfl, ⟨[], by simp⟩⟩
        (syncGroupMembership_gstep kc ad uim g _ _ _)
    | exact ⟨rfl, rfl, rfl, rfl, rfl, rfl, rfl, rfl, ⟨_, rfl⟩⟩

theorem groupLoop_gstep {σ : Type} (realm : String) (kc : KcOracle)
    (ad : ScimAdapter σ) (pm : List (String × KeycloakGroup))
    (egm : List (Option String × ScimGroupRec))
    (uim : List (String × String)) (gs : List KeycloakGroup)
    (acc : GroupAcc σ) :
    GStep acc (gs.foldl (syncGroupOne realm kc ad pm egm uim) acc) :=
  foldl_rel gstep_refl gstep_trans _ (syncGroupOne_gstep realm kc ad pm egm uim)
    gs acc

/-! ## Lemmas on the Python dict model -/

theorem mem_dictKeys {K V : Type} (m : List (K × V)) (k : K) :
    k ∈ dictKeys m ↔ ∃ p ∈ m, p.1 = k := by
  simp only [dictKeys, List.mem_map]

theorem mem_dictKeys_insert {K V : Type} [DecidableEq K] (m : List (K × V))
    (k k' : K) (v : V) :
    k' ∈ dictKeys (dictInsert k v m) ↔ k' = k ∨ k' ∈ dictKeys m := by
  induction m with
  | nil => simp [dictInsert, dictKeys]
  | cons p ps ih =>
    by_cases hp : p.1 = k
    · subst hp
      simp [dictInsert, dictKeys]
    · simp only [dictInsert, if_neg hp, dictKeys, List.map_cons, List.mem_cons]
      rw [show List.map (fun x => x.1) (dictInsert k v ps)
            = dictKeys (dictInsert k v ps) from rfl, ih]
      tauto

theorem dictKeys_nodup_insert {K V : Type} [DecidableEq K] (m : List (K × V))
    (k : K) (v : V) (h : (dictKeys m).Nodup) :
    (dictKeys (dictInsert k v m)).Nodup := by
  induction m with
  | nil => simp [dictInsert, dictKeys]
  | cons p ps ih =>
    simp only [dictKeys, List.map_cons, List.nodup_cons] at h
    by_cases hp : p.1 = k
    · simpa [dictInsert, hp, dictKeys, List.nodup_cons] using h
    · simp only [dictInsert, if_neg hp, dictKeys, List.map_cons, List.nodup_cons]
      refine ⟨fun hmem => ?_, ih h.2⟩
      rw [show List.map Prod.fst (dictInsert k v ps) = dictKeys (dictInsert k v ps) from rfl,
        mem_dictKeys_insert] at hmem
      rcases hmem with rfl | hmem
      · exact hp rfl
      · exact h.1 hmem

theorem mem_of_mem_dictInsert {K V : Type} [DecidableEq K]
    {m : List (K × V)} {k : K} {v : V} {p : K × V}
    (h : p ∈ dictInsert k v m) : p = (k, v) ∨ p ∈ m := by
  induction m with
  | nil => simpa [dictInsert] using h
  | cons q qs ih =>
    by_cases hq : q.1 = k
    · rcases (by simpa [dictInsert, hq] using h : p = (k, v) ∨ p ∈ qs) with h1 | h1
      · exact Or.inl h1
      · exact Or.inr (List.mem_cons_of_mem q h1)
    · rcases (by simpa [dictInsert, hq] using h : p = q ∨ p ∈ dictInsert k v qs)
        with h1 | h1
      · exact Or.inr (h1 ▸ List.mem_cons_self q qs)
      · rcases ih h1 with h2 | h2
        · exact Or.inl h2
        · exact Or.inr (List.mem_cons_of_mem q h2)

theorem dictGet_mem {K V : Type} [DecidableEq K] {m : List (K × V)} {k : K}
    {v : V} (h : dictGet k m = some v) : (k, v) ∈ m := by
  simp only [dictGet, Option.map_eq_some'] at h
  obtain ⟨p, hp, hv⟩ := h
  have hmem := List.mem_of_find?_eq_some hp
  have hk := List.find?_some hp
  simp only [decide_eq_true_eq] at hk
  have : p = (k, v) := by
    cases p; simp only [Prod.mk.injEq]; exact ⟨hk, hv⟩
  exact this ▸ hmem

theorem dictGet_isSome {K V : Type} [DecidableEq K] (m : List (K × V))
    (k : K) : (dictGet k m).isSome ↔ k ∈ dictKeys m := by
  induction m with
  | nil => simp [dictGet, dictKeys]
  | cons p ps ih =>
    by_cases hp : p.1 = k
    · simp [dictGet, dictKeys, List.find?_cons_of_pos, hp]
    · rw [dictGet, List.find?_cons_of_neg _ (by simpa using hp)]
      rw [dictGet] at ih
      simp only [dictKeys, List.map_cons, List.mem_cons] at ih ⊢
      rw [ih]
      constructor
      · exact fun h => Or.inr h
      · rintro (h | h)
        · exact absurd h.symm hp
        · exact h

theorem mem_dictOfList_fold {K V : Type} [DecidableEq K] (f : V → K) :
    ∀ (xs : List V) (acc : List (K × V)) (p : K × V),
      p ∈ xs.foldl (fun m x => dictInsert (f x) x m) acc →
      p ∈ acc ∨ (p.1 = f p.2 ∧ p.2 ∈ xs)
  | [], _, _, h => Or.inl h
  | x :: xs, acc, p, h => by
    rcases mem_dictOfList_fold f xs (dictInsert (f x) x acc) p h with h1 | h1
    · rcases mem_of_mem_dictInsert h1 with h2 | h2
      · exact Or.inr ⟨by simp [h2], by simp [h2]⟩
      · exact Or.inl h2
    · exact Or.inr ⟨h1.1, List.mem_cons_of_mem x h1.2⟩

theorem mem_dictOfList {K V : Type} [DecidableEq K] {f : V → K} {xs : List V}
    {p : K × V} (h : p ∈ dictOfList f xs) : p.1 = f p.2 ∧ p.2 ∈ xs := by
  rcases mem_dictOfList_fold f xs [] p h with h1 | h1
  · simp at h1
  · exact h1

theorem mem_dictKeys_dictOfList_fold {K V : Type} [DecidableEq K] (f : V → K) :
    ∀ (xs : List V) (acc : List (K × V)) (k : K),
      k ∈ dictKeys (xs.foldl (fun m x => dictInsert (f x) x m) acc) ↔
        k ∈ dictKeys acc ∨ k ∈ xs.map f
  | [], acc, k => by simp
  | x :: xs, acc, k => by
    rw [List.foldl_cons, mem_dictKeys_dictOfList_fold f xs, mem_dictKeys_insert]
    simp only [List.map_cons, List.mem_cons]
    tauto

theorem mem_dictKeys_dictOfList {K V : Type} [DecidableEq K] (f : V → K)
    (xs : List V) (k : K) :
    k ∈ dictKeys (dictOfList f xs) ↔ k ∈ xs.map f := by
  rw [dictOfList, mem_dictKeys_dictOfList_fold]
  simp [dictKeys]

theorem dictKeys_dictOfList_nodup_fold {K V : Type} [DecidableEq K]
    (f : V → K) :
    ∀ (xs : List V) (acc : List (K × V)), (dictKeys acc).Nodup →
      (dictKeys (xs.foldl (fun m x => dictInsert (f x) x m) acc)).Nodup
  | [], _, h => h
  | x :: xs, acc, h =>
    dictKeys_dictOfList_nodup_fold f xs (dictInsert (f x) x acc)
      (dictKeys_nodup_insert acc (f x) x h)

theorem dictKeys_dictOfList_nodup {K V : Type} [DecidableEq K] (f : V → K)
    (xs : List V) : (dictKeys (dictOfList f xs)).Nodup :=
  dictKeys_dictOfList_nodup_fold f xs [] (by simp [dictKeys])

theorem dictGet_dictOfList_eq_some {K V : Type} [DecidableEq K] {f : V → K}
    {xs : List V} {k : K} {v : V} (h : dictGet k (dictOfList f xs) = some v) :
    v ∈ xs ∧ f v = k := by
  have hm := dictGet_mem h
  have := mem_dictOfList hm
  exact ⟨this.2, this.1.symm⟩

theorem dictGet_dictOfList_self {K V : Type} [DecidableEq K] {f : V → K}
    {xs : List V} (hnd : (xs.map f).Nodup) {v : V} (hv : v ∈ xs) :
    dictGet (f v) (dictOfList f xs) = some v := by
  have hks : f v ∈ dictKeys (dictOfList f xs) := by
    rw [mem_dictKeys_dictOfList]
    exact List.mem_map_of_mem f hv
  have hsome := (dictGet_isSome (dictOfList f xs) (f v)).mpr hks
  obtain ⟨w, hw⟩ := Option.isSome_iff_exists.mp hsome
  obtain ⟨hwx, hwk⟩ := dictGet_dictOfList_eq_some hw
  have : w = v := List.inj_on_of_nodup_map hnd hwx hv hwk
  rw [hw, this]

/-! ## The shape of every sync_groups run -/

theorem getattrBool_sync_delete_groups (s : Settings) :
    s.getattrBool "sync_delete_groups"
      = .error "AttributeError: 'Settings' object has no attribute 'sync_delete_groups'" := by
  rfl

/-- Every `sync_groups` run either aborts on the source fetch (one error
appended, nothing else) or runs the per-group loop and then invariably hits
the `AttributeError` on the deletion gate, appending `attrErrMsg`. -/
theorem syncGroups_shape {σ : Type} (s : Settings) (kc : KcOracle)
    (ad : ScimAdapter σ) (st0 : SyncStats) (x : σ) :
    (∃ e, syncGroups s kc ad st0 x
        = ⟨st0.addError ("Group sync failed: " ++ e), {}, x⟩) ∨
    (∃ g0 g1 : GroupAcc σ, g0.stats = st0 ∧ g0.trace = {} ∧ GStep g0 g1 ∧
      syncGroups s kc ad st0 x = ⟨g1.stats.addError attrErrMsg, g1.trace, g1.st⟩) := by
  unfold syncGroups
  split
  · exact Or.inl ⟨_, rfl⟩
  · rename_i gs pm hok
    right
    split
    rename_i P1 egl x1 hG
    split
    rename_i P2 sus x2 hU
    dsimp only
    refine ⟨⟨st0, {}, [], x2⟩,
      List.foldl
        (syncGroupOne s.keycloak_realm kc ad pm
          (dictOfList (fun r => r.displayName) egl) (buildUserIdMap sus))
        ⟨st0, {}, [], x2⟩ gs,
      rfl, rfl, groupLoop_gstep _ _ _ _ _ _ _ _, ?_⟩
    split
    · rename_i b heq
      rw [getattrBool_sync_delete_groups] at heq
      cases heq
    · rename_i e heq
      rw [getattrBool_sync_delete_groups] at heq
      cases heq
      rfl

end KVS

namespace KVS

/-! ## C1 — the group-deletion gate -/

/-- Claim C1 (code bug): `config.Settings` declares no `sync_delete_groups`
field, so the deletion gate of `sync_groups` raises instead of switching.
Consequently no run of `sync_groups` ever issues a group-delete call or
increments `groups_deleted`, regardless of configuration or data; on the
concrete fixture the phase records the `AttributeError` as a
`"Group sync failed"` error instead of the claimed clean gating. -/
theorem C1_delete_groups_gate_dead :
    (∀ (σ : Type) (s : Settings) (kc : KcOracle) (ad : ScimAdapter σ)
        (st0 : SyncStats) (x : σ),
      (syncGroups s kc ad st0 x).trace.deleteGroupCalls = [] ∧
        (syncGroups s kc ad st0 x).stats.groups_deleted = st0.groups_deleted) ∧
      (syncGroups sFix kcFix idealAdapter {} dFix).stats.errors = [attrErrMsg] ∧
      "sync_delete_groups" ∉ settingsFieldNames := by
  refine ⟨?_, by rfl, by decide⟩
  intro σ s kc ad st0 x
  rcases syncGroups_shape s kc ad st0 x with ⟨e, heq⟩ | ⟨g0, g1, h0, ht, hg, heq⟩
  · rw [heq]
    exact ⟨rfl, rfl⟩
  · obtain ⟨-, -, -, h4, -, -, -, h8, -⟩ := hg
    rw [heq]
    refine ⟨?_, ?_⟩
    · show g1.trace.deleteGroupCalls = []
      rw [h8, ht]
    · show (g1.stats.addError attrErrMsg).groups_deleted = st0.groups_deleted
      rw [addError_groups_deleted, h4, h0]

/-! ## C9 — reset semantics of the two phases -/

/-- Claim C9, refuted: on the fixture, the result returned by the group
phase still carries the user phase's `users_created = 1` (the group phase
creates no users), because `sync_groups` does not reset the shared stats. -/
theorem C9_groups_phase_merges_counterexample :
    (syncUsers sFix kcFix idealAdapter {} dFix).stats.users_created = 1 ∧
      (syncGroups sFix kcFix idealAdapter
          (syncUsers sFix kcFix idealAdapter {} dFix).stats
          (syncUsers sFix kcFix idealAdapter {} dFix).st).stats.users_created
        = 1 := by
  exact ⟨rfl, rfl⟩

/-- Claim C9, amended: `sync_users` resets the stats object at its start (its
result is independent of the stats it inherits), but `sync_groups` does NOT
reset: it accumulates onto the incoming stats — the user counters pass
through unchanged and the error list is only appended to, so within
`full_sync` the group phase's returned result merges both phases. -/
theorem C9_reset_semantics :
    (∀ (σ : Type) (s : Settings) (kc : KcOracle) (ad : ScimAdapter σ)
        (st0 st0' : SyncStats) (x : σ),
      syncUsers s kc ad st0 x = syncUsers s kc ad st0' x) ∧
    (∀ (σ : Type) (s : Settings) (kc : KcOracle) (ad : ScimAdapter σ)
        (st0 : SyncStats) (x : σ),
      (syncGroups s kc ad st0 x).stats.users_created = st0.users_created ∧
      (syncGroups s kc ad st0 x).stats.users_updated = st0.users_updated ∧
      (syncGroups s kc ad st0 x).stats.users_deleted = st0.users_deleted ∧
      ∃ tl, (syncGroups s kc ad st0 x).stats.errors = st0.errors ++ tl) := by
  refine ⟨fun σ s kc ad st0 st0' x => rfl, ?_⟩
  intro σ s kc ad st0 x
  rcases syncGroups_shape s kc ad st0 x with ⟨e, heq⟩ | ⟨g0, g1, h0, ht, hg, heq⟩
  · rw [heq]
    exact ⟨rfl, rfl, rfl, ⟨_, rfl⟩⟩
  · obtain ⟨h1, h2, h3, -, -, -, -, -, tl, htl⟩ := hg
    rw [heq]
    refine ⟨?_, ?_, ?_, ?_⟩
    · show (g1.stats.addError attrErrMsg).users_created = st0.users_created
      rw [addError_users_created, h1, h0]
    · show (g1.stats.addError attrErrMsg).users_updated = st0.users_updated
      rw [addError_users_updated, h2, h0]
    · show (g1.stats.addError attrErrMsg).users_deleted = st0.users_deleted
      rw [addError_users_deleted, h3, h0]
    · refine ⟨tl ++ [attrErrMsg], ?_⟩
      show g1.stats.errors ++ [attrErrMsg] = st0.errors ++ (tl ++ [attrErrMsg])
      rw [htl, h0, List.append_assoc]

/-! ## C10 — unscoped user deletion -/

theorem deleteUserOne_issues_call {σ : Type} (ad : ScimAdapter σ)
    (ns : List String) (a : PhaseAcc σ) (k : Option String) (ex : ScimUserRec)
    (i : String) (hk : keyInUsernames k ns = false) (hid : ex.id = some i)
    (hi : i ≠ "") :
    i ∈ (deleteUserOne ad ns a (k, ex)).trace.deleteUserCalls := by
  have htr : truthy ex.id = true := by
    rw [hid]; simpa [truthy] using hi
  simp only [deleteUserOne, hk, htr, Bool.false_eq_true, if_false, if_true]
  repeat' split
  all_goals simp [hid]

theorem deletePass_issues_call {σ : Type} (ad : ScimAdapter σ)
    (ns : List String) :
    ∀ (entries : List (Option String × ScimUserRec)) (a : PhaseAcc σ)
      (k : Option String) (ex : ScimUserRec) (i : String),
      (k, ex) ∈ entries → keyInUsernames k ns = false → ex.id = some i →
      i ≠ "" →
      i ∈ (entries.foldl (deleteUserOne ad ns) a).trace.deleteUserCalls
  | [], _, _, _, _, hmem, _, _, _ => absurd hmem (List.not_mem_nil _)
  | p :: ps, a, k, ex, i, hmem, hk, hid, hi => by
    rw [List.foldl_cons]
    rcases List.mem_cons.mp hmem with heq | htail
    · obtain ⟨-, -, -, -, -, -, -, -, -, ⟨tl, htl⟩, -⟩ :=
        deletePass_dstep ad ns ps (deleteUserOne ad ns a p)
      rw [htl]
      refine List.mem_append_left _ ?_
      rw [← heq]
      exact deleteUserOne_issues_call ad ns a k ex i hk hid hi
    · exact deletePass_issues_call ad ns ps (deleteUserOne ad ns a p) k ex i
        htail hk hid hi

/-- Claim C10: with the delete-users switch enabled, `sync_users` issues a
delete call for every destination listing entry (keyed by userName in the
snapshot map) that carries a truthy id and whose userName is not among the
eligible source usernames — with no condition on its externalId and no
naming/ownership scoping whatsoever. -/
theorem C10_user_deletion_unscoped {σ : Type} (s : Settings) (kc : KcOracle)
    (ad : ScimAdapter σ) (st0 : SyncStats) (x : σ)
    (kcUsers : List KeycloakUser) (k : Option String) (ex : ScimUserRec)
    (i : String) (hsw : s.sync_delete_users = true)
    (hfetch : fetchSyncUsersInput s kc = .ok kcUsers)
    (hmem : (k, ex) ∈ dictOfList (fun r => r.userName) (ad.listAllUsers x).1)
    (habs : keyInUsernames k (kcUsers.map (fun u => u.username)) = false)
    (hid : ex.id = some i) (hi : i ≠ "") :
    i ∈ (syncUsers s kc ad st0 x).trace.deleteUserCalls := by
  unfold syncUsers
  split
  · rename_i e heq
    rw [hfetch] at heq
    cases heq
  · rename_i us heq
    rw [hfetch] at heq
    cases heq
    split
    · dsimp only
      exact deletePass_issues_call ad (kcUsers.map (fun u => u.username)) _ _
        k ex i hmem habs hid hi
    · rename_i hF
      exact absurd hsw hF

/-- Witness for C10: on the fixture realm (eligible set `{bob}`), the
destination user `carol` — which this engine never created — receives a
delete call. -/
theorem C10_user_deletion_unscoped_witness :
    "crud" ∈ (syncUsers sFix kcFix idealAdapter {} dStale).trace.deleteUserCalls :=
  C10_user_deletion_unscoped sFix kcFix idealAdapter {} dStale [bob]
    (some "carol") carolRec "crud" rfl rfl (by decide) (by decide) rfl
    (by decide)

/-! ## C4 — conflicting-externalId users are skipped -/

theorem syncUserOne_updateCalls_src {σ : Type} (ad : ScimAdapter σ)
    (m : List (Option String × ScimUserRec)) (a : PhaseAcc σ)
    (v : KeycloakUser) (p : String × ScimUser)
    (h : p ∈ (syncUserOne ad m a v).trace.updateUserCalls) :
    p ∈ a.trace.updateUserCalls ∨
      ∃ ex2, dictGet (some v.username) m = some ex2 ∧
        ex2.externalId = some v.id ∧ p.2.userName = v.username := by
  simp only [syncUserOne] at h
  split at h
  next X ex hget =>
    split at h
    · exact Or.inl h
    next hne =>
      split at h
      next htr =>
        repeat' split at h
        all_goals
          rcases List.mem_append.mp h with h1 | h1
        all_goals first
          | exact Or.inl h1
          | exact Or.inr ⟨ex, hget, not_ne_iff.mp hne,
              (congrArg (fun q => q.2.userName) (List.mem_singleton.mp h1)).trans
                rfl⟩
      next => exact Or.inl h
  next X hget =>
    repeat' split at h
    all_goals exact Or.inl h

theorem userLoop_updateCalls_src {σ : Type} (ad : ScimAdapter σ)
    (m : List (Option String × ScimUserRec)) :
    ∀ (us : List KeycloakUser) (a : PhaseAcc σ) (p : String × ScimUser),
      p ∈ (us.foldl (syncUserOne ad m) a).trace.updateUserCalls →
      p ∈ a.trace.updateUserCalls ∨
        ∃ v ∈ us, ∃ ex2, dictGet (some v.username) m = some ex2 ∧
          ex2.externalId = some v.id ∧ p.2.userName = v.username
  | [], _, _, h => Or.inl h
  | v :: vs, a, p, h => by
    rw [List.foldl_cons] at h
    rcases userLoop_updateCalls_src ad m vs (syncUserOne ad m a v) p h with
      h1 | ⟨w, hw, hrest⟩
    · rcases syncUserOne_updateCalls_src ad m a v p h1 with h2 | ⟨ex2, hrest2⟩
      · exact Or.inl h2
      · exact Or.inr ⟨v, List.mem_cons_self v vs, ex2, hrest2⟩
    · exact Or.inr ⟨w, List.mem_cons_of_mem v hw, hrest⟩

/-- Claim C4: a source user whose destination lookup hits a record with a
different externalId is skipped — its per-user step leaves the accumulator
(stats, errors, calls, destination state) completely unchanged — and no
update call of the whole `sync_users` run targets that username. -/
theorem C4_conflicting_user_skipped {σ : Type} (s : Settings) (kc : KcOracle)
    (ad : ScimAdapter σ) (st0 : SyncStats) (x : σ)
    (kcUsers : List KeycloakUser) (u : KeycloakUser) (ex : ScimUserRec)
    (hfetch : fetchSyncUsersInput s kc = .ok kcUsers)
    (hnd : (kcUsers.map (fun v => v.username)).Nodup) (hu : u ∈ kcUsers)
    (hex : dictGet (some u.username)
        (dictOfList (fun r => r.userName) (ad.listAllUsers x).1) = some ex)
    (hconf : ex.externalId ≠ some u.id) :
    (∀ a : PhaseAcc σ,
      syncUserOne ad (dictOfList (fun r => r.userName) (ad.listAllUsers x).1)
        a u = a) ∧
    ∀ p ∈ (syncUsers s kc ad st0 x).trace.updateUserCalls,
      p.2.userName ≠ u.username := by
  constructor
  · intro a
    unfold syncUserOne
    rw [hex]
    dsimp only
    rw [if_pos hconf]
  · intro p hp
    have hcalls : p ∈ ((kcUsers.foldl
        (syncUserOne ad (dictOfList (fun r => r.userName) (ad.listAllUsers x).1))
        ⟨{}, {}, (ad.listAllUsers x).2⟩).trace.updateUserCalls) := by
      revert hp
      unfold syncUsers
      split
      · rename_i e heq
        rw [hfetch] at heq
        cases heq
      · rename_i us heq
        rw [hfetch] at heq
        cases heq
        split
        · dsimp only
          intro hp
          obtain ⟨-, -, -, -, -, h6, -, -, -, -, -⟩ :=
            deletePass_dstep ad (kcUsers.map (fun v => v.username))
              (dictOfList (fun r => r.userName) (ad.listAllUsers x).1)
              (kcUsers.foldl
                (syncUserOne ad
                  (dictOfList (fun r => r.userName) (ad.listAllUsers x).1))
                ⟨{}, {}, (ad.listAllUsers x).2⟩)
          rw [h6] at hp
          exact hp
        · dsimp only
          exact fun hp => hp
    rcases userLoop_updateCalls_src ad _ kcUsers _ p hcalls with h1 | ⟨v, hv, ex2, hget2, hext2, hun2⟩
    · simp at h1
    · intro hname
      have hvu : v.username = u.username := by rw [← hun2, hname]
      have : v = u := List.inj_on_of_nodup_map hnd hv hu hvu
      subst this
      rw [hget2] at hex
      cases hex
      exact hconf hext2

/-- Witness for C4: with source `bob` (id `u1`) and a destination `bob`
carrying externalId `other-id`, the step is a perfect no-op and no update
call of the run carries username `bob`. -/
theorem C4_conflicting_user_skipped_witness :
    (∀ a : PhaseAcc DestState,
      syncUserOne idealAdapter
        (dictOfList (fun r => r.userName)
          (idealAdapter.listAllUsers dConf).1) a bob = a) ∧
    ∀ p ∈ (syncUsers sFix kcFix idealAdapter {} dConf).trace.updateUserCalls,
      p.2.userName ≠ bob.username :=
  C4_conflicting_user_skipped sFix kcFix idealAdapter {} dConf [bob] bob
    bobConfRec rfl (by decide) (by decide) rfl (by decide)

/-! ## C8 — failure handling of the two adapters -/

/-- Claim C8, refuted: with every destination page request failing at the
transport level, the pagination loop returns `[]` (swallowing the failure),
and the whole `sync_users` phase completes with an empty error list — not
the claimed abort with exactly one recorded error. -/
theorem C8_destination_listing_failure_counterexample :
    listAllUsersPaged pagesDown 10 1 [] = [] ∧
      (syncUsers sFix kcNoMembers scimDown {} ()).stats.errors = [] := by
  exact ⟨rfl, rfl⟩

theorem syncUsers_fetch_error {σ : Type} (s : Settings) (kc : KcOracle)
    (ad : ScimAdapter σ) (st0 : SyncStats) (x : σ) (e : String)
    (he : fetchSyncUsersInput s kc = .error e) :
    syncUsers s kc ad st0 x
      = ⟨SyncStats.addError {} ("Sync failed: " ++ e), {}, x⟩ := by
  unfold syncUsers
  split
  · rename_i e2 heq
    rw [he] at heq
    cases heq
    rfl
  · rename_i us heq
    rw [he] at heq
    cases heq

theorem syncGroups_fetch_error {σ : Type} (s : Settings) (kc : KcOracle)
    (ad : ScimAdapter σ) (st0 : SyncStats) (x : σ) (e : String)
    (he : getFilteredGroupsWithSubgroups s kc = .error e) :
    syncGroups s kc ad st0 x
      = ⟨st0.addError ("Group sync failed: " ++ e), {}, x⟩ := by
  unfold syncGroups
  split
  · rename_i e2 heq
    rw [he] at heq
    cases heq
    rfl
  · rename_i gs pm heq
    rw [he] at heq
    cases heq

theorem listAllUsersPaged_transport (pages : Nat → PageOutcome)
    (fuel si : Nat) (acc : List ScimUserRec) (e : String)
    (he : pages si = .transportError e) :
    listAllUsersPaged pages (fuel + 1) si acc = acc := by
  unfold listAllUsersPaged
  rw [he]
  rfl

/-- Claim C8, amended: a transport/auth failure while fetching from the
SOURCE directory aborts the phase, records exactly one error and returns
the partial SyncResult (the functions are total — nothing is raised to the
caller). A transport failure against the DESTINATION during paginated
listing is swallowed inside the adapter: the loop returns what it collected
so far, no error is recorded for it, and the phase continues on the partial
listing. -/
theorem C8_failure_semantics :
    (∀ (σ : Type) (s : Settings) (kc : KcOracle) (ad : ScimAdapter σ)
        (st0 : SyncStats) (x : σ) (e : String),
      fetchSyncUsersInput s kc = .error e →
      syncUsers s kc ad st0 x
        = ⟨SyncStats.addError {} ("Sync failed: " ++ e), {}, x⟩) ∧
    (∀ (σ : Type) (s : Settings) (kc : KcOracle) (ad : ScimAdapter σ)
        (st0 : SyncStats) (x : σ) (e : String),
      getFilteredGroupsWithSubgroups s kc = .error e →
      syncGroups s kc ad st0 x
        = ⟨st0.addError ("Group sync failed: " ++ e), {}, x⟩) ∧
    (∀ (pages : Nat → PageOutcome) (fuel si : Nat) (acc : List ScimUserRec)
        (e : String),
      pages si = .transportError e →
      listAllUsersPaged pages (fuel + 1) si acc = acc) := by
  refine ⟨?_, ?_, ?_⟩
  · intro σ s kc ad st0 x e he
    exact syncUsers_fetch_error s kc ad st0 x e he
  · intro σ s kc ad st0 x e he
    exact syncGroups_fetch_error s kc ad st0 x e he
  · intro pages fuel si acc e he
    exact listAllUsersPaged_transport pages fuel si acc e he

/-- Witness for C8's amended statement at concrete inputs: an unreachable
source aborts each phase with exactly one error and returns the state
untouched; a failing destination page request makes the listing loop return
its accumulator. -/
theorem C8_failure_semantics_witness :
    syncUsers sFix kcDown idealAdapter {} dFix
        = ⟨SyncStats.addError {} ("Sync failed: " ++ "conn refused"), {}, dFix⟩ ∧
      syncGroups sFix kcDown idealAdapter {} dFix
        = ⟨SyncStats.addError {} ("Group sync failed: " ++ "conn refused"), {}, dFix⟩ ∧
      listAllUsersPaged pagesDown 1 1 [] = [] :=
  ⟨C8_failure_semantics.1 DestState sFix kcDown idealAdapter {} dFix
      "conn refused" rfl,
    C8_failure_semantics.2.1 DestState sFix kcDown idealAdapter {} dFix
      "conn refused" rfl,
    C8_failure_semantics.2.2 pagesDown 0 1 [] "connection refused" rfl⟩

/-! ## C6 — only subgroups are synced -/

theorem kcGetGroups_subset (attrName : String) (filt : Option String)
    (allGroups : List KeycloakGroup) :
    ∀ g ∈ kcGetGroups attrName filt allGroups, g ∈ allGroups := by
  intro g hg
  unfold kcGetGroups at hg
  split at hg
  · exact hg
  · exact List.mem_of_mem_filter hg

theorem collectSubgroups_src (kc : KcOracle) :
    ∀ (ps : List KeycloakGroup)
      (acc : List KeycloakGroup × List (String × KeycloakGroup))
      (gs : List KeycloakGroup) (pm : List (String × KeycloakGroup)),
      collectSubgroups kc ps acc = .ok (gs, pm) →
      ∀ g ∈ gs,
        g ∈ acc.1 ∨ ∃ p ∈ ps, ∃ l, kc.subgroups p.id = .ok l ∧ g ∈ l
  | [], acc, gs, pm, h, g, hg => by
    have hacc : acc = (gs, pm) := Except.ok.inj h
    rw [hacc]
    exact Or.inl hg
  | p :: ps, acc, gs, pm, h, g, hg => by
    rw [show collectSubgroups kc (p :: ps) acc
        = (if 0 < p.subGroupCount then
            match kc.subgroups p.id with
            | .error e => .error e
            | .ok subs =>
                collectSubgroups kc ps
                  (acc.1 ++ subs,
                   subs.foldl (fun m sg => dictInsert sg.id p m) acc.2)
          else collectSubgroups kc ps acc) from rfl] at h
    by_cases hc : 0 < p.subGroupCount
    · rw [if_pos hc] at h
      cases hs : kc.subgroups p.id with
      | error e => rw [hs] at h; cases h
      | ok subs =>
        rw [hs] at h
        rcases collectSubgroups_src kc ps _ gs pm h g hg with hin | ⟨q, hq, l, hl, hgl⟩
        · rcases List.mem_append.mp hin with h1 | h1
          · exact Or.inl h1
          · exact Or.inr ⟨p, List.mem_cons_self p ps, subs, hs, h1⟩
        · exact Or.inr ⟨q, List.mem_cons_of_mem p hq, l, hl, hgl⟩
    · rw [if_neg hc] at h
      rcases collectSubgroups_src kc ps acc gs pm h g hg with h1 | ⟨q, hq, hrest⟩
      · exact Or.inl h1
      · exact Or.inr ⟨q, List.mem_cons_of_mem p hq, hrest⟩

/-- Claim C6: every synced group is a fetched immediate child of some
filtered top-level group; and whenever children are disjoint from the
top-level listing (the group hierarchy is a tree), no synced group is a
filtered top-level group. -/
theorem C6_only_subgroups_synced (s : Settings) (kc : KcOracle)
    (allg gs : List KeycloakGroup) (pm : List (String × KeycloakGroup))
    (hall : kc.allTopGroups = .ok allg)
    (hres : getFilteredGroupsWithSubgroups s kc = .ok (gs, pm)) :
    (∀ g ∈ gs,
      ∃ p ∈ kcGetGroups s.vcenter_name_attribute s.vcenter_name allg,
        ∃ l, kc.subgroups p.id = .ok l ∧ g ∈ l) ∧
    ((∀ p ∈ allg, ∀ l, kc.subgroups p.id = .ok l → ∀ c ∈ l, c ∉ allg) →
      ∀ g ∈ gs, g ∉ kcGetGroups s.vcenter_name_attribute s.vcenter_name allg) := by
  have hsrc : ∀ g ∈ gs,
      ∃ p ∈ kcGetGroups s.vcenter_name_attribute s.vcenter_name allg,
        ∃ l, kc.subgroups p.id = .ok l ∧ g ∈ l := by
    intro g hg
    unfold getFilteredGroupsWithSubgroups at hres
    rw [hall] at hres
    rcases collectSubgroups_src kc _ ([], []) gs pm hres g hg with h1 | h2
    · simp at h1
    · exact h2
  refine ⟨hsrc, fun htree g hg hgf => ?_⟩
  obtain ⟨p, hp, l, hl, hgl⟩ := hsrc g hg
  exact htree p (kcGetGroups_subset _ _ _ p hp) l hl g hgl
    (kcGetGroups_subset _ _ _ g hgf)

/-- Witness for C6 on the fixture realm: the synced set is `[admins]`, each
element a child of the filtered parent `eng`, and under tree-ness none of
them is a filtered top-level group. -/
theorem C6_only_subgroups_synced_witness :
    (∀ g ∈ [adminsGroup],
      ∃ p ∈ kcGetGroups sFix.vcenter_name_attribute sFix.vcenter_name
          [engGroup],
        ∃ l, kcFix.subgroups p.id = .ok l ∧ g ∈ l) ∧
    ((∀ p ∈ [engGroup], ∀ l, kcFix.subgroups p.id = .ok l →
        ∀ c ∈ l, c ∉ [engGroup]) →
      ∀ g ∈ [adminsGroup],
        g ∉ kcGetGroups sFix.vcenter_name_attribute sFix.vcenter_name
          [engGroup]) :=
  C6_only_subgroups_synced sFix kcFix [engGroup] [adminsGroup]
    [("g1", engGroup)] rfl rfl

/-! ## C5 — the eligible user set -/

/-- Claim C5, refuted: `eng` is a filtered top-level group with member
`bob`, yet — having zero subgroups — it contributes nothing: the computed
eligible user set is empty, while the claim requires it to contain the
members of ALL filtered top-level groups. -/
theorem C5_zero_subgroup_parent_counterexample :
    kcGetGroups "vcenter_name" (some "v1") [engGroupNoSubs] = [engGroupNoSubs] ∧
      kcZero.members "p1" = .ok [bob] ∧
      fetchSyncUsersInput sFix kcZero = .ok [] := by
  exact ⟨rfl, rfl, rfl⟩

theorem collectGroupUsers_entries (kc : KcOracle) :
    ∀ (groups : List KeycloakGroup) (acc m : List (String × KeycloakUser)),
      (∀ p ∈ acc, p.1 = p.2.id) → collectGroupUsers kc groups acc = .ok m →
      ∀ p ∈ m, p.1 = p.2.id
  | [], acc, m, hacc, h, p, hp => by
    have : acc = m := Except.ok.inj h
    exact hacc p (this ▸ hp)
  | g :: groups, acc, m, hacc, h, p, hp => by
    rw [show collectGroupUsers kc (g :: groups) acc
        = (match kc.members g.id with
          | .error e => .error e
          | .ok ms =>
              collectGroupUsers kc groups
                (ms.foldl (fun m2 u => dictInsert u.id u m2) acc)) from rfl] at h
    cases hms : kc.members g.id with
    | error e => rw [hms] at h; cases h
    | ok ms =>
      rw [hms] at h
      refine collectGroupUsers_entries kc groups _ m ?_ h p hp
      intro q hq
      rcases mem_dictOfList_fold (fun u => u.id) ms acc q hq with h1 | h1
      · exact hacc q h1
      · exact h1.1

theorem collectGroupUsers_keys (kc : KcOracle) :
    ∀ (groups : List KeycloakGroup) (acc m : List (String × KeycloakUser)),
      collectGroupUsers kc groups acc = .ok m →
      ∀ uid, uid ∈ dictKeys m ↔
        uid ∈ dictKeys acc ∨
          ∃ g ∈ groups, ∃ ms, kc.members g.id = .ok ms ∧
            uid ∈ ms.map (fun u => u.id)
  | [], acc, m, h, uid => by
    have : acc = m := Except.ok.inj h
    subst this
    simp
  | g :: groups, acc, m, h, uid => by
    rw [show collectGroupUsers kc (g :: groups) acc
        = (match kc.members g.id with
          | .error e => .error e
          | .ok ms =>
              collectGroupUsers kc groups
                (ms.foldl (fun m2 u => dictInsert u.id u m2) acc)) from rfl] at h
    cases hms : kc.members g.id with
    | error e => rw [hms] at h; cases h
    | ok ms =>
      rw [hms] at h
      rw [collectGroupUsers_keys kc groups _ m h uid,
        mem_dictKeys_dictOfList_fold (fun u => u.id) ms acc uid]
      constructor
      · rintro ((h1 | h1) | ⟨q, hq, l, hl, hm⟩)
        · exact Or.inl h1
        · exact Or.inr ⟨g, List.mem_cons_self g groups, ms, hms, h1⟩
        · exact Or.inr ⟨q, List.mem_cons_of_mem g hq, l, hl, hm⟩
      · rintro (h1 | ⟨q, hq, l, hl, hm⟩)
        · exact Or.inl (Or.inl h1)
        · rcases List.mem_cons.mp hq with rfl | hq2
          · rw [hms] at hl
            have : ms = l := Except.ok.inj hl
            subst this
            exact Or.inl (Or.inr hm)
          · exact Or.inr ⟨q, hq2, l, hl, hm⟩

theorem collectGroupUsers_keys_nodup (kc : KcOracle) :
    ∀ (groups : List KeycloakGroup) (acc m : List (String × KeycloakUser)),
      (dictKeys acc).Nodup → collectGroupUsers kc groups acc = .ok m →
      (dictKeys m).Nodup
  | [], acc, m, hacc, h => Except.ok.inj h ▸ hacc
  | g :: groups, acc, m, hacc, h => by
    rw [show collectGroupUsers kc (g :: groups) acc
        = (match kc.members g.id with
          | .error e => .error e
          | .ok ms =>
              collectGroupUsers kc groups
                (ms.foldl (fun m2 u => dictInsert u.id u m2) acc)) from rfl] at h
    cases hms : kc.members g.id with
    | error e => rw [hms] at h; cases h
    | ok ms =>
      rw [hms] at h
      exact collectGroupUsers_keys_nodup kc groups _ m
        (dictKeys_dictOfList_nodup_fold (fun u => u.id) ms acc hacc) h

/-- Claim C5, amended: the eligible user set computed before the user diff
is the union of the members of the synced subgroups and of the parent-map
values — i.e. of those filtered top-level groups that contributed at least
one recorded subgroup (once per subgroup); a filtered top-level group with
zero subgroups contributes no members. Deduplication by source user id
holds: each eligible id appears exactly once. -/
theorem C5_eligible_user_set (s : Settings) (kc : KcOracle)
    (gs : List KeycloakGroup) (pm : List (String × KeycloakGroup))
    (users : List KeycloakUser)
    (_hres : getFilteredGroupsWithSubgroups s kc = .ok (gs, pm))
    (husers : getUsersFromGroups kc (gs ++ dictValues pm) = .ok users) :
    (users.map (fun u => u.id)).Nodup ∧
      ∀ uid, uid ∈ users.map (fun u => u.id) ↔
        ∃ g ∈ gs ++ dictValues pm, ∃ ms, kc.members g.id = .ok ms ∧
          uid ∈ ms.map (fun m => m.id) := by
  unfold getUsersFromGroups at husers
  cases hc : collectGroupUsers kc (gs ++ dictValues pm) [] with
  | error e => rw [hc] at husers; cases husers
  | ok m =>
    rw [hc] at husers
    have husers2 : dictValues m = users := Except.ok.inj husers
    have hentries := collectGroupUsers_entries kc _ [] m (by simp) hc
    have hmapeq : users.map (fun u => u.id) = dictKeys m := by
      rw [← husers2]
      unfold dictValues dictKeys
      rw [List.map_map]
      refine List.map_congr_left ?_
      intro p hp
      exact (hentries p hp).symm
    constructor
    · rw [hmapeq]
      exact collectGroupUsers_keys_nodup kc _ [] m (by simp [dictKeys]) hc
    · intro uid
      rw [hmapeq, collectGroupUsers_keys kc _ [] m hc uid]
      simp [dictKeys]

/-- Witness for C5's amended statement on the fixture realm: the eligible
set is exactly `[bob]`, each id once, drawn from `admins` and its recorded
parent `eng`. -/
theorem C5_eligible_user_set_witness :
    (([bob].map (fun u => u.id)).Nodup ∧
      ∀ uid, uid ∈ [bob].map (fun u => u.id) ↔
        ∃ g ∈ [adminsGroup] ++ dictValues [("g1", engGroup)],
          ∃ ms, kcFix.members g.id = .ok ms ∧
            uid ∈ ms.map (fun m => m.id)) :=
  C5_eligible_user_set sFix kcFix [adminsGroup] [("g1", engGroup)] [bob]
    rfl rfl

end KVS

namespace KVS

/-! ## C2 — idempotence of full_sync -/

/-- Claim C2, refuted: on the fixture (one source user, initially empty
destination) the second `full_sync` run reports `users_updated = 1`, not
`0`: the update branch issues a PUT unconditionally for every matched
user, with no changed-field check. -/
theorem C2_second_run_counterexample :
    (runFull sFix kcFix (runFull sFix kcFix dFix).2).1.users_updated ≠ 0 ∧
      (runFull sFix kcFix (runFull sFix kcFix dFix).2).1.users_updated = 1 := by
  exact ⟨by decide, rfl⟩

theorem mem_delIds {ns : List String}
    {entries : List (Option String × ScimUserRec)} {i : String} :
    i ∈ delIds ns entries ↔
      ∃ p ∈ entries, keyInUsernames p.1 ns = false ∧ truthy p.2.id = true ∧
        p.2.id.getD "" = i := by
  unfold delIds
  rw [List.mem_filterMap]
  constructor
  · rintro ⟨p, hp, hi⟩
    by_cases h1 : keyInUsernames p.1 ns
    · rw [if_pos h1] at hi; cases hi
    · rw [if_neg h1] at hi
      by_cases h2 : truthy p.2.id
      · rw [if_pos h2] at hi
        exact ⟨p, hp, by simpa using h1, h2, Option.some.inj hi⟩
      · rw [if_neg h2] at hi; cases hi
  · rintro ⟨p, hp, h1, h2, hi⟩
    refine ⟨p, hp, ?_⟩
    rw [if_neg (by simp [h1]), if_pos h2, hi]

theorem filterMap_nodup_inj {α β : Type} [DecidableEq β] (f : α → Option β) :
    ∀ (l : List α), (l.filterMap f).Nodup →
      ∀ a ∈ l, ∀ b ∈ l, ∀ i, f a = some i → f b = some i → a = b
  | [], _, a, ha, _, _, _, _, _ => absurd ha (List.not_mem_nil a)
  | x :: xs, h, a, ha, b, hb, i, hfa, hfb => by
    rw [List.filterMap_cons] at h
    rcases List.mem_cons.mp ha with rfl | ha2
    · rcases List.mem_cons.mp hb with rfl | hb2
      · rfl
      · rw [hfa] at h
        exfalso
        exact (List.nodup_cons.mp h).1
          (List.mem_filterMap.mpr ⟨b, hb2, hfb⟩)
    · rcases List.mem_cons.mp hb with rfl | hb2
      · rw [hfb] at h
        exfalso
        exact (List.nodup_cons.mp h).1
          (List.mem_filterMap.mpr ⟨a, ha2, hfa⟩)
      · cases hfx : f x with
        | none =>
          rw [hfx] at h
          exact filterMap_nodup_inj f xs h a ha2 b hb2 i hfa hfb
        | some j =>
          rw [hfx] at h
          exact filterMap_nodup_inj f xs (List.nodup_cons.mp h).2
            a ha2 b hb2 i hfa hfb

theorem syncUserOne_conflict {σ : Type} (ad : ScimAdapter σ)
    (m : List (Option String × ScimUserRec)) (a : PhaseAcc σ)
    (u : KeycloakUser) (ex : ScimUserRec)
    (hget : dictGet (some u.username) m = some ex)
    (hne : ex.externalId ≠ some u.id) :
    syncUserOne ad m a u = a := by
  unfold syncUserOne
  rw [hget]
  dsimp only
  rw [if_pos hne]

theorem syncUserOne_no_id {σ : Type} (ad : ScimAdapter σ)
    (m : List (Option String × ScimUserRec)) (a : PhaseAcc σ)
    (u : KeycloakUser) (ex : ScimUserRec)
    (hget : dictGet (some u.username) m = some ex)
    (hmatch : ex.externalId = some u.id) (hfalse : truthy ex.id = false) :
    syncUserOne ad m a u = a := by
  unfold syncUserOne
  rw [hget]
  dsimp only
  rw [if_neg (not_ne_iff.mpr hmatch), if_neg (by simp [hfalse])]

theorem syncUserOne_found_created {σ : Type} (ad : ScimAdapter σ)
    (m : List (Option String × ScimUserRec)) (a : PhaseAcc σ)
    (u : KeycloakUser) (ex : ScimUserRec)
    (hget : dictGet (some u.username) m = some ex) :
    (syncUserOne ad m a u).stats.users_created = a.stats.users_created := by
  unfold syncUserOne
  rw [hget]
  dsimp only
  repeat' split
  all_goals rfl

theorem userLoop_created_zero {σ : Type} (ad : ScimAdapter σ)
    (m : List (Option String × ScimUserRec)) :
    ∀ (us : List KeycloakUser) (a : PhaseAcc σ),
      (∀ u ∈ us, (dictGet (some u.username) m).isSome) →
      ((us.foldl (syncUserOne ad m) a).stats.users_created
        = a.stats.users_created)
  | [], a, _ => rfl
  | u :: us, a, h => by
    rw [List.foldl_cons]
    obtain ⟨ex, hex⟩ := Option.isSome_iff_exists.mp (h u (List.mem_cons_self u us))
    rw [userLoop_created_zero ad m us (syncUserOne ad m a u)
        (fun v hv => h v (List.mem_cons_of_mem u hv)),
      syncUserOne_found_created ad m a u ex hex]

theorem deleteUserOne_skip {σ : Type} (ad : ScimAdapter σ) (ns : List String)
    (a : PhaseAcc σ) (p : Option String × ScimUserRec)
    (h : keyInUsernames p.1 ns = true ∨ truthy p.2.id = false) :
    deleteUserOne ad ns a p = a := by
  unfold deleteUserOne
  rcases h with h | h
  · rw [if_pos h]
  · by_cases h1 : keyInUsernames p.1 ns
    · rw [if_pos h1]
    · rw [if_neg h1, if_neg (by simp [h])]

theorem deletePass_skip {σ : Type} (ad : ScimAdapter σ) (ns : List String) :
    ∀ (entries : List (Option String × ScimUserRec)) (a : PhaseAcc σ),
      (∀ p ∈ entries,
        keyInUsernames p.1 ns = true ∨ truthy p.2.id = false) →
      entries.foldl (deleteUserOne ad ns) a = a
  | [], _, _ => rfl
  | p :: ps, a, h => by
    rw [List.foldl_cons,
      deleteUserOne_skip ad ns a p (h p (List.mem_cons_self p ps))]
    exact deletePass_skip ad ns ps a (fun q hq => h q (List.mem_cons_of_mem p hq))

end KVS

namespace KVS

theorem syncUserOne_ideal_none (m : List (Option String × ScimUserRec))
    (a : PhaseAcc DestState) (u : KeycloakUser)
    (hnone : dictGet (some u.username) m = none) :
    syncUserOne idealAdapter m a u =
      ⟨{ a.stats with users_created := a.stats.users_created + 1 },
       { a.trace with createUserCalls :=
           a.trace.createUserCalls ++ [convertKeycloakToScimUser u] },
       { a.st with
         users := a.st.users ++ [createdRec u a.st.nextUid],
         nextUid := a.st.nextUid + 1 }⟩ := by
  unfold syncUserOne
  rw [hnone]
  rfl

theorem syncUserOne_ideal_update (m : List (Option String × ScimUserRec))
    (a : PhaseAcc DestState) (u : KeycloakUser) (ex : ScimUserRec)
    (hget : dictGet (some u.username) m = some ex)
    (hmatch : ex.externalId = some u.id) (htr : truthy ex.id = true) :
    syncUserOne idealAdapter m a u =
      ⟨{ a.stats with users_updated := a.stats.users_updated + 1 },
       { a.trace with updateUserCalls :=
           a.trace.updateUserCalls ++
             [(ex.id.getD "",
               { convertKeycloakToScimUser u with id := some (ex.id.getD "") })] },
       { a.st with
         users := a.st.users.map (fun r =>
           if r.id = some (ex.id.getD "") then
             { r with userName := some u.username } else r) }⟩ := by
  unfold syncUserOne
  rw [hget]
  dsimp only
  rw [if_neg (not_ne_iff.mpr hmatch), if_pos htr]
  rfl

theorem deleteUserOne_ideal_delete (ns : List String)
    (a : PhaseAcc DestState) (p : Option String × ScimUserRec)
    (hk : keyInUsernames p.1 ns = false) (htr : truthy p.2.id = true) :
    deleteUserOne idealAdapter ns a p =
      ⟨{ a.stats with users_deleted := a.stats.users_deleted + 1 },
       { a.trace with deleteUserCalls :=
           a.trace.deleteUserCalls ++ [p.2.id.getD ""] },
       { a.st with
         users := a.st.users.filter (fun r => r.id ≠ some (p.2.id.getD "")) }⟩ := by
  unfold deleteUserOne
  rw [if_neg (by simp [hk]), if_pos htr]
  rfl

theorem syncUserOne_ideal_groups (m : List (Option String × ScimUserRec))
    (a : PhaseAcc DestState) (u : KeycloakUser) :
    (syncUserOne idealAdapter m a u).st.groups = a.st.groups := by
  simp only [syncUserOne]
  repeat' split
  all_goals rfl

theorem deleteUserOne_ideal_groups (ns : List String)
    (a : PhaseAcc DestState) (p : Option String × ScimUserRec) :
    (deleteUserOne idealAdapter ns a p).st.groups = a.st.groups := by
  simp only [deleteUserOne]
  repeat' split
  all_goals rfl

theorem userLoop_ideal_groups (m : List (Option String × ScimUserRec)) :
    ∀ (us : List KeycloakUser) (a : PhaseAcc DestState),
      ((us.foldl (syncUserOne idealAdapter m) a).st.groups = a.st.groups)
  | [], _ => rfl
  | u :: us, a => by
    rw [List.foldl_cons,
      userLoop_ideal_groups m us (syncUserOne idealAdapter m a u),
      syncUserOne_ideal_groups m a u]

theorem deletePass_ideal_groups (ns : List String) :
    ∀ (entries : List (Option String × ScimUserRec)) (a : PhaseAcc DestState),
      ((entries.foldl (deleteUserOne idealAdapter ns) a).st.groups
        = a.st.groups)
  | [], _ => rfl
  | p :: ps, a => by
    rw [List.foldl_cons,
      deletePass_ideal_groups ns ps (deleteUserOne idealAdapter ns a p),
      deleteUserOne_ideal_groups ns a p]

theorem syncGroupMembership_ideal_st (kc : KcOracle)
    (uim : List (String × String)) (g : KeycloakGroup) (dn : String)
    (gid? : Option String) (acc : GroupAcc DestState) :
    (syncGroupMembership kc idealAdapter uim g dn gid? acc).st = acc.st := by
  simp only [syncGroupMembership]
  repeat' split
  all_goals rfl

theorem syncGroupOne_ideal_users (realm : String) (kc : KcOracle)
    (pm : List (String × KeycloakGroup))
    (egm : List (Option String × ScimGroupRec))
    (uim : List (String × String)) (acc : GroupAcc DestState)
    (g : KeycloakGroup) :
    (syncGroupOne realm kc idealAdapter pm egm uim acc g).st.users
      = acc.st.users := by
  simp only [syncGroupOne]
  repeat' split
  all_goals first
    | (rw [syncGroupMembership_ideal_st]; rfl)
    | (rw [syncGroupMembership_ideal_st])
    | rfl

theorem groupLoop_ideal_users (realm : String) (kc : KcOracle)
    (pm : List (String × KeycloakGroup))
    (egm : List (Option String × ScimGroupRec))
    (uim : List (String × String)) :
    ∀ (gs : List KeycloakGroup) (acc : GroupAcc DestState),
      ((gs.foldl (syncGroupOne realm kc idealAdapter pm egm uim) acc).st.users
        = acc.st.users)
  | [], _ => rfl
  | g :: gs, acc => by
    rw [List.foldl_cons,
      groupLoop_ideal_users realm kc pm egm uim gs
        (syncGroupOne realm kc idealAdapter pm egm uim acc g),
      syncGroupOne_ideal_users realm kc pm egm uim acc g]

theorem syncUsers_ideal_eq (s : Settings) (kc : KcOracle)
    {kcUsers : List KeycloakUser}
    (hfetch : fetchSyncUsersInput s kc = .ok kcUsers) (st0 : SyncStats)
    (d : DestState) :
    syncUsers s kc idealAdapter st0 d =
      (if s.sync_delete_users then
        (dictOfList (fun r => r.userName) d.users).foldl
          (deleteUserOne idealAdapter (kcUsers.map (fun u => u.username)))
          (kcUsers.foldl
            (syncUserOne idealAdapter (dictOfList (fun r => r.userName) d.users))
            ⟨{}, {}, d⟩)
      else
        kcUsers.foldl
          (syncUserOne idealAdapter (dictOfList (fun r => r.userName) d.users))
          ⟨{}, {}, d⟩) := by
  unfold syncUsers
  rw [hfetch]
  rfl

theorem syncGroups_ideal_eq (s : Settings) (kc : KcOracle)
    {gs : List KeycloakGroup} {pm : List (String × KeycloakGroup)}
    (hfg : getFilteredGroupsWithSubgroups s kc = .ok (gs, pm))
    (st0 : SyncStats) (d : DestState) :
    syncGroups s kc idealAdapter st0 d =
      ⟨(gs.foldl
          (syncGroupOne s.keycloak_realm kc idealAdapter pm
            (dictOfList (fun r => r.displayName) d.groups)
            (buildUserIdMap d.users)) ⟨st0, {}, [], d⟩).stats.addError attrErrMsg,
       (gs.foldl
          (syncGroupOne s.keycloak_realm kc idealAdapter pm
            (dictOfList (fun r => r.displayName) d.groups)
            (buildUserIdMap d.users)) ⟨st0, {}, [], d⟩).trace,
       (gs.foldl
          (syncGroupOne s.keycloak_realm kc idealAdapter pm
            (dictOfList (fun r => r.displayName) d.groups)
            (buildUserIdMap d.users)) ⟨st0, {}, [], d⟩).st⟩ := by
  unfold syncGroups
  rw [hfg]
  rfl

end KVS

namespace KVS

theorem syncUsers_ideal_groups (s : Settings) (kc : KcOracle)
    (st0 : SyncStats) (d : DestState) :
    (syncUsers s kc idealAdapter st0 d).st.groups = d.groups := by
  cases hf : fetchSyncUsersInput s kc with
  | error e => rw [syncUsers_fetch_error s kc idealAdapter st0 d e hf]
  | ok kcUsers =>
    rw [syncUsers_ideal_eq s kc hf st0 d]
    by_cases hsw : s.sync_delete_users
    · rw [if_pos hsw, deletePass_ideal_groups, userLoop_ideal_groups]
    · rw [if_neg hsw, userLoop_ideal_groups]

theorem syncGroups_ideal_users (s : Settings) (kc : KcOracle)
    (st0 : SyncStats) (d : DestState) :
    (syncGroups s kc idealAdapter st0 d).st.users = d.users := by
  cases hf : getFilteredGroupsWithSubgroups s kc with
  | error e => rw [syncGroups_fetch_error s kc idealAdapter st0 d e hf]
  | ok gspm =>
    obtain ⟨gs, pm⟩ := gspm
    rw [syncGroups_ideal_eq s kc hf st0 d]
    exact groupLoop_ideal_users s.keycloak_realm kc pm _ _ gs ⟨st0, {}, [], d⟩

theorem deletePass_ideal_mem (ns : List String) :
    ∀ (entries : List (Option String × ScimUserRec)) (a : PhaseAcc DestState)
      (r : ScimUserRec),
      (r ∈ (entries.foldl (deleteUserOne idealAdapter ns) a).st.users ↔
        (r ∈ a.st.users ∧ ∀ i ∈ delIds ns entries, r.id ≠ some i))
  | [], a, r => by simp [delIds]
  | p :: ps, a, r => by
    rw [List.foldl_cons]
    by_cases h1 : keyInUsernames p.1 ns
    · rw [deleteUserOne_skip idealAdapter ns a p (Or.inl h1),
        deletePass_ideal_mem ns ps a r,
        show delIds ns (p :: ps) = delIds ns ps by
          simp [delIds, List.filterMap_cons, h1]]
    · by_cases h2 : truthy p.2.id
      · rw [deleteUserOne_ideal_delete ns a p (by simpa using h1) h2,
          deletePass_ideal_mem ns ps _ r,
          show delIds ns (p :: ps) = p.2.id.getD "" :: delIds ns ps by
            simp [delIds, List.filterMap_cons, h1, h2]]
        simp only [List.mem_filter, List.forall_mem_cons, decide_eq_true_eq]
        tauto
      · rw [deleteUserOne_skip idealAdapter ns a p
            (Or.inr (by simpa using h2)),
          deletePass_ideal_mem ns ps a r,
          show delIds ns (p :: ps) = delIds ns ps by
            simp [delIds, List.filterMap_cons, h1, h2]]

theorem mem_dictKeys_insertFold {K V A : Type} [DecidableEq K] (key : A → K)
    (val : A → V) :
    ∀ (xs : List A) (acc : List (K × V)) (k : K),
      k ∈ dictKeys (xs.foldl (fun m x => dictInsert (key x) (val x) m) acc) ↔
        k ∈ dictKeys acc ∨ k ∈ xs.map key
  | [], acc, k => by simp
  | x :: xs, acc, k => by
    rw [List.foldl_cons, mem_dictKeys_insertFold key val xs, mem_dictKeys_insert]
    simp only [List.map_cons, List.mem_cons]
    tauto

theorem collectSubgroups_pm_covers (kc : KcOracle) :
    ∀ (ps : List KeycloakGroup)
      (acc : List KeycloakGroup × List (String × KeycloakGroup))
      (gs : List KeycloakGroup) (pm : List (String × KeycloakGroup)),
      collectSubgroups kc ps acc = .ok (gs, pm) →
      (∀ k, k ∈ dictKeys acc.2 → k ∈ dictKeys pm) ∧
        (∀ g ∈ gs, g ∈ acc.1 ∨ g.id ∈ dictKeys pm)
  | [], acc, gs, pm, h => by
    have hacc : acc = (gs, pm) := Except.ok.inj h
    subst hacc
    exact ⟨fun k hk => hk, fun g hg => Or.inl hg⟩
  | p :: ps, acc, gs, pm, h => by
    rw [show collectSubgroups kc (p :: ps) acc
        = (if 0 < p.subGroupCount then
            match kc.subgroups p.id with
            | .error e => .error e
            | .ok subs =>
                collectSubgroups kc ps
                  (acc.1 ++ subs,
                   subs.foldl (fun m sg => dictInsert sg.id p m) acc.2)
          else collectSubgroups kc ps acc) from rfl] at h
    by_cases hc : 0 < p.subGroupCount
    · rw [if_pos hc] at h
      cases hs : kc.subgroups p.id with
      | error e => rw [hs] at h; cases h
      | ok subs =>
        rw [hs] at h
        obtain ⟨mono, hgs⟩ := collectSubgroups_pm_covers kc ps _ gs pm h
        refine ⟨?_, ?_⟩
        · intro k hk
          refine mono k ?_
          exact (mem_dictKeys_insertFold (fun sg => sg.id) (fun _ => p) subs
            acc.2 k).mpr (Or.inl hk)
        · intro g hg
          rcases hgs g hg with hin | hin
          · rcases List.mem_append.mp hin with h3 | h3
            · exact Or.inl h3
            · refine Or.inr (mono g.id ?_)
              exact (mem_dictKeys_insertFold (fun sg => sg.id) (fun _ => p)
                subs acc.2 g.id).mpr
                (Or.inr (List.mem_map_of_mem (fun sg => sg.id) h3))
          · exact Or.inr hin
    · rw [if_neg hc] at h
      exact collectSubgroups_pm_covers kc ps acc gs pm h

theorem getFiltered_pm_covers (s : Settings) (kc : KcOracle)
    {gs : List KeycloakGroup} {pm : List (String × KeycloakGroup)}
    (h : getFilteredGroupsWithSubgroups s kc = .ok (gs, pm)) :
    ∀ g ∈ gs, (dictGet g.id pm).isSome := by
  unfold getFilteredGroupsWithSubgroups at h
  cases hall : kc.allTopGroups with
  | error e => rw [hall] at h; cases h
  | ok allg =>
    rw [hall] at h
    obtain ⟨-, hgs⟩ := collectSubgroups_pm_covers kc _ ([], []) gs pm h
    intro g hg
    rcases hgs g hg with hin | hin
    · simp at hin
    · exact (dictGet_isSome pm g.id).mpr hin

end KVS

namespace KVS

theorem truthy_eq_some_getD {o : Option String} (h : truthy o = true) :
    o = some (o.getD "") := by
  cases o with
  | none => simp [truthy] at h
  | some s => rfl


/-- Closed form of the per-user loop of `sync_users` against the
deterministic destination: starting from a listing snapshot `D` (with
unique truthy ids, none of them generator-made) extended by
generator-created records `N`, the loop only appends further created
records — updates rewrite a user's name to the value it already has and
deletes never occur here. Every source user whose username is absent from
the snapshot map gets a created record. -/
theorem userLoop_ideal_users (m : List (Option String × ScimUserRec))
    (D : List ScimUserRec)
    (hm : ∀ p ∈ m, p.1 = p.2.userName ∧ p.2 ∈ D)
    (hids : (D.filterMap (fun r => r.id)).Nodup) (hfresh : GenFresh D) :
    ∀ (us : List KeycloakUser) (a : PhaseAcc DestState)
      (N : List ScimUserRec),
      a.st.users = D ++ N →
      (∀ r ∈ N, ∃ n, r.id = some (genUid n)) →
      ∃ N2 : List ScimUserRec,
        (us.foldl (syncUserOne idealAdapter m) a).st.users = D ++ (N ++ N2) ∧
        (∀ r ∈ N2, (∃ n, r.id = some (genUid n)) ∧
          ∃ u ∈ us, r.userName = some u.username) ∧
        (∀ u ∈ us, dictGet (some u.username) m = none →
          ∃ r ∈ N2, r.userName = some u.username)
  | [], a, N, hN, _ => ⟨[], by simpa using hN, by simp, by simp⟩
  | u :: us, a, N, hN, hNgen => by
    rw [List.foldl_cons]
    cases hget : dictGet (some u.username) m with
    | none =>
      rw [syncUserOne_ideal_none m a u hget]
      have hA : ({ a.st with
          users := a.st.users ++ [createdRec u a.st.nextUid],
          nextUid := a.st.nextUid + 1 } : DestState).users
          = D ++ (N ++ [createdRec u a.st.nextUid]) := by
        show a.st.users ++ _ = _
        rw [hN, List.append_assoc]
      obtain ⟨N2, husers, hN2, hpres⟩ :=
        userLoop_ideal_users m D hm hids hfresh us
          ⟨{ a.stats with users_created := a.stats.users_created + 1 },
           { a.trace with createUserCalls :=
               a.trace.createUserCalls ++ [convertKeycloakToScimUser u] },
           { a.st with
             users := a.st.users ++ [createdRec u a.st.nextUid],
             nextUid := a.st.nextUid + 1 }⟩
          (N ++ [createdRec u a.st.nextUid]) hA
          (by
            intro r hr
            rcases List.mem_append.mp hr with hr1 | hr1
            · exact hNgen r hr1
            · rw [List.mem_singleton.mp hr1]
              exact ⟨a.st.nextUid, rfl⟩)
      refine ⟨createdRec u a.st.nextUid :: N2, ?_, ?_, ?_⟩
      · rw [husers, List.append_assoc]
        rfl
      · intro r hr
        rcases List.mem_cons.mp hr with rfl | hr1
        · exact ⟨⟨a.st.nextUid, rfl⟩, u, List.mem_cons_self u us, rfl⟩
        · obtain ⟨hg, v, hv, hvn⟩ := hN2 r hr1
          exact ⟨hg, v, List.mem_cons_of_mem u hv, hvn⟩
      · intro v hv hvnone
        rcases List.mem_cons.mp hv with rfl | hv1
        · exact ⟨createdRec v a.st.nextUid,
            List.mem_cons_self _ _, rfl⟩
        · obtain ⟨r, hr, hrn⟩ := hpres v hv1 hvnone
          exact ⟨r, List.mem_cons_of_mem _ hr, hrn⟩
    | some ex =>
      obtain ⟨hkey, hexD⟩ := hm (some u.username, ex) (dictGet_mem hget)
      by_cases hext : ex.externalId = some u.id
      · by_cases htr : truthy ex.id
        · rw [syncUserOne_ideal_update m a u ex hget hext htr]
          have hexid := truthy_eq_some_getD htr
          have hptw : ∀ r ∈ a.st.users,
              (if r.id = some (ex.id.getD "") then
                ({ r with userName := some u.username } : ScimUserRec)
               else r) = r := by
            intro r hr
            by_cases hid : r.id = some (ex.id.getD "")
            · rw [if_pos hid]
              rw [hN] at hr
              rcases List.mem_append.mp hr with hrD | hrN
              · have hrex : r = ex :=
                  filterMap_nodup_inj (fun r2 => r2.id) D hids r hrD ex hexD
                    (ex.id.getD "") hid hexid
                subst hrex
                have hun : r.userName = some u.username := hkey.symm
                rw [← hun]
              · obtain ⟨n, hgen⟩ := hNgen r hrN
                rw [hgen] at hid
                exfalso
                apply hfresh ex hexD n
                have hgn : genUid n = ex.id.getD "" := Option.some.inj hid
                rw [hexid, ← hgn]
            · rw [if_neg hid]
          have hmap : a.st.users.map (fun r =>
              if r.id = some (ex.id.getD "") then
                { r with userName := some u.username } else r) = a.st.users := by
            calc a.st.users.map (fun r =>
                  if r.id = some (ex.id.getD "") then
                    { r with userName := some u.username } else r)
                = a.st.users.map id := List.map_congr_left hptw
              _ = a.st.users := List.map_id _
          have hA : ({ a.st with
              users := a.st.users.map (fun r =>
                if r.id = some (ex.id.getD "") then
                  { r with userName := some u.username } else r) } :
                DestState).users = D ++ N := by
            show a.st.users.map _ = D ++ N
            rw [hmap, hN]
          obtain ⟨N2, husers, hN2, hpres⟩ :=
            userLoop_ideal_users m D hm hids hfresh us
              ⟨{ a.stats with users_updated := a.stats.users_updated + 1 },
               { a.trace with updateUserCalls :=
                   a.trace.updateUserCalls ++
                     [(ex.id.getD "",
                       { convertKeycloakToScimUser u with
                         id := some (ex.id.getD "") })] },
               { a.st with
                 users := a.st.users.map (fun r =>
                   if r.id = some (ex.id.getD "") then
                     { r with userName := some u.username } else r) }⟩
              N hA hNgen
          refine ⟨N2, husers, ?_, ?_⟩
          · intro r hr
            obtain ⟨hg, v, hv, hvn⟩ := hN2 r hr
            exact ⟨hg, v, List.mem_cons_of_mem u hv, hvn⟩
          · intro v hv hvnone
            rcases List.mem_cons.mp hv with rfl | hv1
            · rw [hget] at hvnone
              cases hvnone
            · exact hpres v hv1 hvnone
        · rw [syncUserOne_no_id idealAdapter m a u ex hget hext
            (by simpa using htr)]
          obtain ⟨N2, husers, hN2, hpres⟩ :=
            userLoop_ideal_users m D hm hids hfresh us a N hN hNgen
          refine ⟨N2, husers, ?_, ?_⟩
          · intro r hr
            obtain ⟨hg, v, hv, hvn⟩ := hN2 r hr
            exact ⟨hg, v, List.mem_cons_of_mem u hv, hvn⟩
          · intro v hv hvnone
            rcases List.mem_cons.mp hv with rfl | hv1
            · rw [hget] at hvnone
              cases hvnone
            · exact hpres v hv1 hvnone
      · rw [syncUserOne_conflict idealAdapter m a u ex hget hext]
        obtain ⟨N2, husers, hN2, hpres⟩ :=
          userLoop_ideal_users m D hm hids hfresh us a N hN hNgen
        refine ⟨N2, husers, ?_, ?_⟩
        · intro r hr
          obtain ⟨hg, v, hv, hvn⟩ := hN2 r hr
          exact ⟨hg, v, List.mem_cons_of_mem u hv, hvn⟩
        · intro v hv hvnone
          rcases List.mem_cons.mp hv with rfl | hv1
          · rw [hget] at hvnone
            cases hvnone
          · exact hpres v hv1 hvnone

end KVS

namespace KVS

theorem syncGroupMembership_created {σ : Type} (kc : KcOracle)
    (ad : ScimAdapter σ) (uim : List (String × String)) (g : KeycloakGroup)
    (dn : String) (gid? : Option String) (acc : GroupAcc σ) :
    (syncGroupMembership kc ad uim g dn gid? acc).stats.groups_created
      = acc.stats.groups_created := by
  simp only [syncGroupMembership]
  repeat' split
  all_goals rfl

theorem syncGroupOne_found_created {σ : Type} (realm : String) (kc : KcOracle)
    (ad : ScimAdapter σ) (pm : List (String × KeycloakGroup))
    (egm : List (Option String × ScimGroupRec))
    (uim : List (String × String)) (acc : GroupAcc σ) (g : KeycloakGroup)
    (eg : ScimGroupRec)
    (h : dictGet (some (groupDisplayName realm (dictGet g.id pm) g)) egm
      = some eg) :
    (syncGroupOne realm kc ad pm egm uim acc g).stats.groups_created
      = acc.stats.groups_created := by
  simp only [syncGroupOne]
  rw [h]
  dsimp only
  rw [syncGroupMembership_created]

theorem groupLoop_created_of_found {σ : Type} (realm : String)
    (kc : KcOracle) (ad : ScimAdapter σ)
    (pm : List (String × KeycloakGroup))
    (egm : List (Option String × ScimGroupRec))
    (uim : List (String × String)) :
    ∀ (gs : List KeycloakGroup) (acc : GroupAcc σ),
      (∀ g ∈ gs,
        (dictGet (some (groupDisplayName realm (dictGet g.id pm) g)) egm).isSome) →
      (gs.foldl (syncGroupOne realm kc ad pm egm uim) acc).stats.groups_created
        = acc.stats.groups_created
  | [], _, _ => rfl
  | g :: gs, acc, h => by
    rw [List.foldl_cons]
    obtain ⟨eg, heg⟩ := Option.isSome_iff_exists.mp
      (h g (List.mem_cons_self g gs))
    rw [groupLoop_created_of_found realm kc ad pm egm uim gs _
        (fun g2 hg2 => h g2 (List.mem_cons_of_mem g hg2)),
      syncGroupOne_found_created realm kc ad pm egm uim acc g eg heg]

theorem syncGroupOne_ideal_found (realm : String) (kc : KcOracle)
    (pm : List (String × KeycloakGroup))
    (egm : List (Option String × ScimGroupRec))
    (uim : List (String × String)) (acc : GroupAcc DestState)
    (g : KeycloakGroup) (eg : ScimGroupRec)
    (h : dictGet (some (groupDisplayName realm (dictGet g.id pm) g)) egm
      = some eg) :
    (syncGroupOne realm kc idealAdapter pm egm uim acc g).st = acc.st := by
  simp only [syncGroupOne]
  rw [h]
  dsimp only
  rw [syncGroupMembership_ideal_st]

theorem syncGroupOne_ideal_create_eq (realm : String) (kc : KcOracle)
    (pm : List (String × KeycloakGroup))
    (egm : List (Option String × ScimGroupRec))
    (uim : List (String × String)) (acc : GroupAcc DestState)
    (g : KeycloakGroup)
    (h : dictGet (some (groupDisplayName realm (dictGet g.id pm) g)) egm
      = none) :
    syncGroupOne realm kc idealAdapter pm egm uim acc g
      = syncGroupMembership kc idealAdapter uim g
          (groupDisplayName realm (dictGet g.id pm) g)
          (some (genGid acc.st.nextGid))
          { stats := { acc.stats with
              groups_created := acc.stats.groups_created + 1 },
            trace := { acc.trace with
              createGroupCalls := acc.trace.createGroupCalls ++
                [convertKeycloakToScimGroup realm g (dictGet g.id pm) []] },
            syncedNames := acc.syncedNames ++
              [groupDisplayName realm (dictGet g.id pm) g],
            st := { acc.st with
              groups := acc.st.groups ++
                [createdGroupRec
                  (convertKeycloakToScimGroup realm g
                    (dictGet g.id pm) []).displayName acc.st.nextGid],
              nextGid := acc.st.nextGid + 1 } } := by
  simp only [syncGroupOne]
  rw [h]
  rfl

theorem syncGroupOne_ideal_create_groups (realm : String) (kc : KcOracle)
    (pm : List (String × KeycloakGroup))
    (egm : List (Option String × ScimGroupRec))
    (uim : List (String × String)) (acc : GroupAcc DestState)
    (g : KeycloakGroup)
    (h : dictGet (some (groupDisplayName realm (dictGet g.id pm) g)) egm
      = none) :
    (syncGroupOne realm kc idealAdapter pm egm uim acc g).st.groups
      = acc.st.groups ++
        [createdGroupRec
          (convertKeycloakToScimGroup realm g (dictGet g.id pm) []).displayName
          acc.st.nextGid] := by
  rw [syncGroupOne_ideal_create_eq realm kc pm egm uim acc g h,
    syncGroupMembership_ideal_st]

theorem convName_eq_dn (realm : String) (g : KeycloakGroup)
    (pm : List (String × KeycloakGroup)) (h : (dictGet g.id pm).isSome) :
    (convertKeycloakToScimGroup realm g (dictGet g.id pm) []).displayName
      = groupDisplayName realm (dictGet g.id pm) g := by
  obtain ⟨p, hp⟩ := Option.isSome_iff_exists.mp h
  rw [hp]
  rfl

theorem syncGroupOne_ideal_groups_mono (realm : String) (kc : KcOracle)
    (pm : List (String × KeycloakGroup))
    (egm : List (Option String × ScimGroupRec))
    (uim : List (String × String)) (acc : GroupAcc DestState)
    (g : KeycloakGroup) (r : ScimGroupRec) (hr : r ∈ acc.st.groups) :
    r ∈ (syncGroupOne realm kc idealAdapter pm egm uim acc g).st.groups := by
  cases hget : dictGet (some (groupDisplayName realm (dictGet g.id pm) g)) egm with
  | some eg =>
    rw [syncGroupOne_ideal_found realm kc pm egm uim acc g eg hget]
    exact hr
  | none =>
    rw [syncGroupOne_ideal_create_groups realm kc pm egm uim acc g hget]
    exact List.mem_append_left _ hr

theorem groupLoop_ideal_groups_mono (realm : String) (kc : KcOracle)
    (pm : List (String × KeycloakGroup))
    (egm : List (Option String × ScimGroupRec))
    (uim : List (String × String)) :
    ∀ (gs : List KeycloakGroup) (acc : GroupAcc DestState) (r : ScimGroupRec),
      r ∈ acc.st.groups →
      r ∈ (gs.foldl (syncGroupOne realm kc idealAdapter pm egm uim) acc).st.groups
  | [], _, _, hr => hr
  | g :: gs, acc, r, hr => by
    rw [List.foldl_cons]
    exact groupLoop_ideal_groups_mono realm kc pm egm uim gs _ r
      (syncGroupOne_ideal_groups_mono realm kc pm egm uim acc g r hr)

/-- Every group processed by the per-group loop of `sync_groups` (against
the deterministic destination) ends up represented in the destination
state: its correlation display name names some destination group, either a
pre-existing one or the one just created. -/
theorem groupLoop_ideal_names (realm : String) (kc : KcOracle)
    (pm : List (String × KeycloakGroup))
    (egm : List (Option String × ScimGroupRec))
    (uim : List (String × String)) :
    ∀ (gs : List KeycloakGroup) (acc : GroupAcc DestState),
      (∀ k eg, dictGet k egm = some eg →
        ∃ r ∈ acc.st.groups, r.displayName = k) →
      ∀ g ∈ gs, (dictGet g.id pm).isSome →
      ∃ r ∈ (gs.foldl (syncGroupOne realm kc idealAdapter pm egm uim) acc).st.groups,
        r.displayName = some (groupDisplayName realm (dictGet g.id pm) g)
  | [], _, _, g, hg, _ => absurd hg (List.not_mem_nil g)
  | g :: gs, acc, hacc, g2, hg2, hpm => by
    rw [List.foldl_cons]
    have hacc2 : ∀ k eg, dictGet k egm = some eg →
        ∃ r ∈ (syncGroupOne realm kc idealAdapter pm egm uim acc g).st.groups,
          r.displayName = k := by
      intro k eg hk
      obtain ⟨r, hr, hrn⟩ := hacc k eg hk
      exact ⟨r, syncGroupOne_ideal_groups_mono realm kc pm egm uim acc g r hr,
        hrn⟩
    rcases List.mem_cons.mp hg2 with rfl | hg3
    · cases hget : dictGet
          (some (groupDisplayName realm (dictGet g2.id pm) g2)) egm with
      | some eg =>
        obtain ⟨r, hr, hrn⟩ := hacc _ eg hget
        exact ⟨r,
          groupLoop_ideal_groups_mono realm kc pm egm uim gs _ r
            (syncGroupOne_ideal_groups_mono realm kc pm egm uim acc g2 r hr),
          hrn⟩
      | none =>
        refine ⟨createdGroupRec
            (convertKeycloakToScimGroup realm g2
              (dictGet g2.id pm) []).displayName acc.st.nextGid,
          ?_, ?_⟩
        · refine groupLoop_ideal_groups_mono realm kc pm egm uim gs _ _ ?_
          rw [syncGroupOne_ideal_create_groups realm kc pm egm uim acc g2 hget]
          exact List.mem_append_right _ (List.mem_singleton_self _)
        · rw [convName_eq_dn realm g2 pm hpm]
          rfl
    · exact groupLoop_ideal_names realm kc pm egm uim gs _ hacc2 g2 hg3 hpm

theorem keyIn_some (n : String) (ns : List String) :
    keyInUsernames (some n) ns = true ↔ n ∈ ns := by
  simp [keyInUsernames]

theorem syncUsers_ideal_groups_zero (s : Settings) (kc : KcOracle)
    (st0 : SyncStats) (d : DestState) :
    (syncUsers s kc idealAdapter st0 d).stats.groups_created = 0 ∧
      (syncUsers s kc idealAdapter st0 d).stats.groups_deleted = 0 := by
  cases hf : fetchSyncUsersInput s kc with
  | error e =>
    rw [syncUsers_fetch_error s kc idealAdapter st0 d e hf]
    exact ⟨rfl, rfl⟩
  | ok kcUsers =>
    rw [syncUsers_ideal_eq s kc hf st0 d]
    by_cases hsw : s.sync_delete_users
    · rw [if_pos hsw]
      obtain ⟨-, hgc, hgd, -⟩ := userLoop_ustep idealAdapter
        (dictOfList (fun r => r.userName) d.users) kcUsers ⟨{}, {}, d⟩
      obtain ⟨-, -, hgc2, hgd2, -⟩ := deletePass_dstep idealAdapter
        (kcUsers.map (fun u => u.username))
        (dictOfList (fun r => r.userName) d.users)
        (kcUsers.foldl (syncUserOne idealAdapter
          (dictOfList (fun r => r.userName) d.users)) ⟨{}, {}, d⟩)
      exact ⟨hgc2.trans hgc, hgd2.trans hgd⟩
    · rw [if_neg hsw]
      obtain ⟨-, hgc, hgd, -⟩ := userLoop_ustep idealAdapter
        (dictOfList (fun r => r.userName) d.users) kcUsers ⟨{}, {}, d⟩
      exact ⟨hgc, hgd⟩

theorem syncGroups_pass_counters {σ : Type} (s : Settings) (kc : KcOracle)
    (ad : ScimAdapter σ) (st0 : SyncStats) (x : σ) :
    (syncGroups s kc ad st0 x).stats.users_created = st0.users_created ∧
    (syncGroups s kc ad st0 x).stats.users_deleted = st0.users_deleted ∧
    (syncGroups s kc ad st0 x).stats.groups_deleted = st0.groups_deleted := by
  rcases syncGroups_shape s kc ad st0 x with ⟨e, heq⟩ | ⟨g0, g1, h0, -, hg, heq⟩
  · rw [heq]
    exact ⟨rfl, rfl, rfl⟩
  · obtain ⟨h1, -, h3, h4, -, -, -, -, -⟩ := hg
    rw [heq]
    refine ⟨?_, ?_, ?_⟩
    · show (g1.stats.addError attrErrMsg).users_created = st0.users_created
      rw [addError_users_created, h1, h0]
    · show (g1.stats.addError attrErrMsg).users_deleted = st0.users_deleted
      rw [addError_users_deleted, h3, h0]
    · show (g1.stats.addError attrErrMsg).groups_deleted = st0.groups_deleted
      rw [addError_groups_deleted, h4, h0]

theorem syncGroups_created_of_cov (s : Settings) (kc : KcOracle)
    {gs : List KeycloakGroup} {pm : List (String × KeycloakGroup)}
    (hfg : getFilteredGroupsWithSubgroups s kc = .ok (gs, pm))
    (st0 : SyncStats) (d : DestState)
    (hcov : ∀ g ∈ gs,
      (dictGet (some (groupDisplayName s.keycloak_realm (dictGet g.id pm) g))
        (dictOfList (fun r => r.displayName) d.groups)).isSome) :
    (syncGroups s kc idealAdapter st0 d).stats.groups_created
      = st0.groups_created := by
  rw [syncGroups_ideal_eq s kc hfg st0 d]
  dsimp only
  rw [addError_groups_created,
    groupLoop_created_of_found s.keycloak_realm kc idealAdapter pm
      (dictOfList (fun r => r.displayName) d.groups) (buildUserIdMap d.users)
      gs ⟨st0, {}, [], d⟩ hcov]

theorem firstRun_group_names (s : Settings) (kc : KcOracle)
    {gs : List KeycloakGroup} {pm : List (String × KeycloakGroup)}
    (hfg : getFilteredGroupsWithSubgroups s kc = .ok (gs, pm))
    (st0 : SyncStats) (d : DestState) :
    ∀ g ∈ gs, ∃ r ∈ (syncGroups s kc idealAdapter st0 d).st.groups,
      r.displayName
        = some (groupDisplayName s.keycloak_realm (dictGet g.id pm) g) := by
  intro g hg
  rw [syncGroups_ideal_eq s kc hfg st0 d]
  exact groupLoop_ideal_names s.keycloak_realm kc pm
    (dictOfList (fun r => r.displayName) d.groups) (buildUserIdMap d.users)
    gs ⟨st0, {}, [], d⟩
    (fun k eg hk => by
      obtain ⟨hmem, hkey⟩ := dictGet_dictOfList_eq_some hk
      exact ⟨eg, hmem, hkey⟩)
    g hg (getFiltered_pm_covers s kc hfg g hg)

theorem syncUsers_second_zero (s : Settings) (kc : KcOracle)
    {kcUsers : List KeycloakUser}
    (hfetch : fetchSyncUsersInput s kc = .ok kcUsers)
    (st0 : SyncStats) (d : DestState)
    (hpres : ∀ u ∈ kcUsers,
      some u.username ∈ d.users.map (fun r => r.userName))
    (hnodel : s.sync_delete_users = true →
      ∀ r ∈ d.users,
        keyInUsernames r.userName (kcUsers.map (fun u => u.username)) = true ∨
          truthy r.id = false) :
    (syncUsers s kc idealAdapter st0 d).stats.users_created = 0 ∧
      (syncUsers s kc idealAdapter st0 d).stats.users_deleted = 0 := by
  rw [syncUsers_ideal_eq s kc hfetch st0 d]
  have hsomem : ∀ u ∈ kcUsers,
      (dictGet (some u.username)
        (dictOfList (fun r => r.userName) d.users)).isSome := by
    intro u hu
    rw [dictGet_isSome, mem_dictKeys_dictOfList]
    exact hpres u hu
  by_cases hsw : s.sync_delete_users
  · rw [if_pos hsw]
    have hskip : ∀ p ∈ dictOfList (fun r => r.userName) d.users,
        keyInUsernames p.1 (kcUsers.map (fun u => u.username)) = true ∨
          truthy p.2.id = false := by
      intro p hp
      obtain ⟨hk, hmem⟩ := mem_dictOfList hp
      rcases hnodel hsw p.2 hmem with h | h
      · left
        rw [hk]
        exact h
      · right
        exact h
    rw [deletePass_skip idealAdapter (kcUsers.map (fun u => u.username))
      (dictOfList (fun r => r.userName) d.users)
      (kcUsers.foldl (syncUserOne idealAdapter
        (dictOfList (fun r => r.userName) d.users)) ⟨{}, {}, d⟩) hskip]
    constructor
    · exact userLoop_created_zero idealAdapter
        (dictOfList (fun r => r.userName) d.users) kcUsers ⟨{}, {}, d⟩ hsomem
    · obtain ⟨hud, -⟩ := userLoop_ustep idealAdapter
        (dictOfList (fun r => r.userName) d.users) kcUsers ⟨{}, {}, d⟩
      exact hud
  · rw [if_neg hsw]
    constructor
    · exact userLoop_created_zero idealAdapter
        (dictOfList (fun r => r.userName) d.users) kcUsers ⟨{}, {}, d⟩ hsomem
    · obtain ⟨hud, -⟩ := userLoop_ustep idealAdapter
        (dictOfList (fun r => r.userName) d.users) kcUsers ⟨{}, {}, d⟩
      exact hud

/-- After a first `sync_users` run against the deterministic destination,
every source username is present on the destination, and (with the deletion
switch on) every surviving destination user is either eligible by username
or carries a falsy id — exactly the preconditions that make a second run
issue no creates and no deletes. -/
theorem firstRun_users (s : Settings) (kc : KcOracle)
    {kcUsers : List KeycloakUser}
    (hfetch : fetchSyncUsersInput s kc = .ok kcUsers)
    (st0 : SyncStats) (d : DestState)
    (hun : (d.users.map (fun r => r.userName)).Nodup)
    (hids : (d.users.filterMap (fun r => r.id)).Nodup)
    (hfresh : GenFresh d.users) :
    (∀ u ∈ kcUsers, ∃ r ∈ (syncUsers s kc idealAdapter st0 d).st.users,
        r.userName = some u.username) ∧
      (s.sync_delete_users = true →
        ∀ r ∈ (syncUsers s kc idealAdapter st0 d).st.users,
          keyInUsernames r.userName (kcUsers.map (fun u => u.username)) = true ∨
            truthy r.id = false) := by
  rw [syncUsers_ideal_eq s kc hfetch st0 d]
  have hm : ∀ p ∈ dictOfList (fun r => r.userName) d.users,
      p.1 = p.2.userName ∧ p.2 ∈ d.users := by
    intro p hp
    obtain ⟨hk, hmem⟩ := mem_dictOfList hp
    exact ⟨hk, hmem⟩
  obtain ⟨N2, husers, hN2, hpres⟩ :=
    userLoop_ideal_users (dictOfList (fun r => r.userName) d.users) d.users
      hm hids hfresh kcUsers ⟨{}, {}, d⟩ [] (by simp) (by simp)
  by_cases hsw : s.sync_delete_users
  · rw [if_pos hsw]
    have hsurvD : ∀ ex ∈ d.users,
        keyInUsernames ex.userName (kcUsers.map (fun u => u.username)) = true →
        ∀ i ∈ delIds (kcUsers.map (fun u => u.username))
            (dictOfList (fun r => r.userName) d.users),
          ex.id ≠ some i := by
      intro ex hexD hkey i hi hexid
      obtain ⟨p, hp, hpk, hptr, hpi⟩ := mem_delIds.mp hi
      have hpid : p.2.id = some i := by
        rw [truthy_eq_some_getD hptr, hpi]
      obtain ⟨hk, hmem⟩ := mem_dictOfList hp
      have hpe : p.2 = ex := filterMap_nodup_inj (fun r => r.id) d.users hids
        p.2 hmem ex hexD i hpid hexid
      have hk2 : p.1 = ex.userName :=
        hk.trans (congrArg (fun r => r.userName) hpe)
      rw [hk2, hkey] at hpk
      cases hpk
    have hsurvN : ∀ r ∈ N2,
        ∀ i ∈ delIds (kcUsers.map (fun u => u.username))
            (dictOfList (fun r => r.userName) d.users),
          r.id ≠ some i := by
      intro r hr i hi hrid
      obtain ⟨⟨n, hgen⟩, -⟩ := hN2 r hr
      obtain ⟨p, hp, -, hptr, hpi⟩ := mem_delIds.mp hi
      have hpid : p.2.id = some i := by
        rw [truthy_eq_some_getD hptr, hpi]
      obtain ⟨-, hmem⟩ := mem_dictOfList hp
      rw [hgen] at hrid
      have hieq : i = genUid n := (Option.some.inj hrid).symm
      apply hfresh p.2 hmem n
      rw [hpid, hieq]
    constructor
    · intro u hu
      cases hget : dictGet (some u.username)
          (dictOfList (fun r => r.userName) d.users) with
      | some ex =>
        obtain ⟨hexD, hexName⟩ := dictGet_dictOfList_eq_some hget
        have hkey : keyInUsernames ex.userName
            (kcUsers.map (fun u => u.username)) = true := by
          rw [show ex.userName = some u.username from hexName]
          exact (keyIn_some u.username _).mpr
            (List.mem_map_of_mem (fun v => v.username) hu)
        refine ⟨ex, ?_, hexName⟩
        refine (deletePass_ideal_mem _ _ _ ex).mpr ⟨?_, hsurvD ex hexD hkey⟩
        rw [husers]
        exact List.mem_append_left _ hexD
      | none =>
        obtain ⟨r, hrN2, hrn⟩ := hpres u hu hget
        refine ⟨r, ?_, hrn⟩
        refine (deletePass_ideal_mem _ _ _ r).mpr ⟨?_, hsurvN r hrN2⟩
        rw [husers]
        exact List.mem_append_right _ (List.mem_append_right _ hrN2)
    · intro _ r hr
      obtain ⟨hr1, hsurv⟩ := (deletePass_ideal_mem _ _ _ r).mp hr
      rw [husers] at hr1
      rcases List.mem_append.mp hr1 with hrD | hrN
      · by_cases hkey : keyInUsernames r.userName
            (kcUsers.map (fun u => u.username))
        · exact Or.inl hkey
        · by_cases htr : truthy r.id
          · exfalso
            have hentry := dictGet_mem (dictGet_dictOfList_self hun hrD)
            have hdel : r.id.getD "" ∈ delIds
                (kcUsers.map (fun u => u.username))
                (dictOfList (fun rr => rr.userName) d.users) :=
              mem_delIds.mpr ⟨((fun rr => rr.userName) r, r), hentry,
                by simpa using hkey, htr, rfl⟩
            exact hsurv (r.id.getD "") hdel (truthy_eq_some_getD htr)
          · exact Or.inr (by simpa using htr)
      · rw [List.nil_append] at hrN
        obtain ⟨-, u, hu, hname⟩ := hN2 r hrN
        refine Or.inl ?_
        rw [hname]
        exact (keyIn_some u.username _).mpr
          (List.mem_map_of_mem (fun v => v.username) hu)
  · rw [if_neg hsw]
    constructor
    · intro u hu
      cases hget : dictGet (some u.username)
          (dictOfList (fun r => r.userName) d.users) with
      | some ex =>
        obtain ⟨hexD, hexName⟩ := dictGet_dictOfList_eq_some hget
        refine ⟨ex, ?_, hexName⟩
        rw [husers]
        exact List.mem_append_left _ hexD
      | none =>
        obtain ⟨r, hrN2, hrn⟩ := hpres u hu hget
        refine ⟨r, ?_, hrn⟩
        rw [husers]
        exact List.mem_append_right _ (List.mem_append_right _ hrN2)
    · intro h
      exact absurd h hsw

/-- Claim C2, amended: running the reconciliation twice in succession with
no source changes yields a second SyncResult with `users_created`,
`users_deleted`, `groups_created` and `groups_deleted` all zero — but NOT
`users_updated = 0`: the update branch issues a PUT for every matched user
unconditionally (see the counterexample). Stated against the deterministic
destination, for any source oracle and settings, from any initial
destination whose listed users have pairwise-distinct usernames, pairwise
distinct truthy ids and no generator-shaped id. -/
theorem C2_second_run_convergent (s : Settings) (kc : KcOracle)
    (d0 : DestState)
    (hun : (d0.users.map (fun r => r.userName)).Nodup)
    (hids : (d0.users.filterMap (fun r => r.id)).Nodup)
    (hfresh : GenFresh d0.users) :
    (runFull s kc (runFull s kc d0).2).1.users_created = 0 ∧
    (runFull s kc (runFull s kc d0).2).1.users_deleted = 0 ∧
    (runFull s kc (runFull s kc d0).2).1.groups_created = 0 ∧
    (runFull s kc (runFull s kc d0).2).1.groups_deleted = 0 := by
  show
    (syncGroups s kc idealAdapter
      (syncUsers s kc idealAdapter {} ((runFull s kc d0).2)).stats
      (syncUsers s kc idealAdapter {}
        ((runFull s kc d0).2)).st).stats.users_created = 0 ∧
    (syncGroups s kc idealAdapter
      (syncUsers s kc idealAdapter {} ((runFull s kc d0).2)).stats
      (syncUsers s kc idealAdapter {}
        ((runFull s kc d0).2)).st).stats.users_deleted = 0 ∧
    (syncGroups s kc idealAdapter
      (syncUsers s kc idealAdapter {} ((runFull s kc d0).2)).stats
      (syncUsers s kc idealAdapter {}
        ((runFull s kc d0).2)).st).stats.groups_created = 0 ∧
    (syncGroups s kc idealAdapter
      (syncUsers s kc idealAdapter {} ((runFull s kc d0).2)).stats
      (syncUsers s kc idealAdapter {}
        ((runFull s kc d0).2)).st).stats.groups_deleted = 0
  have hd1u : ((runFull s kc d0).2).users
      = (syncUsers s kc idealAdapter {} d0).st.users :=
    syncGroups_ideal_users s kc (syncUsers s kc idealAdapter {} d0).stats
      (syncUsers s kc idealAdapter {} d0).st
  have hd1g : ((runFull s kc d0).2).groups
      = (syncGroups s kc idealAdapter
          (syncUsers s kc idealAdapter {} d0).stats
          (syncUsers s kc idealAdapter {} d0).st).st.groups := rfl
  obtain ⟨hgu1, hgu2, hgu3⟩ := syncGroups_pass_counters s kc idealAdapter
    (syncUsers s kc idealAdapter {} ((runFull s kc d0).2)).stats
    (syncUsers s kc idealAdapter {} ((runFull s kc d0).2)).st
  obtain ⟨hgc0, hgd0⟩ :=
    syncUsers_ideal_groups_zero s kc {} ((runFull s kc d0).2)
  have huc : (syncUsers s kc idealAdapter {}
        ((runFull s kc d0).2)).stats.users_created = 0 ∧
      (syncUsers s kc idealAdapter {}
        ((runFull s kc d0).2)).stats.users_deleted = 0 := by
    cases hfu : fetchSyncUsersInput s kc with
    | error e =>
      rw [syncUsers_fetch_error s kc idealAdapter {} ((runFull s kc d0).2) e hfu]
      exact ⟨rfl, rfl⟩
    | ok kcUsers =>
      obtain ⟨hF1, hF2⟩ := firstRun_users s kc hfu {} d0 hun hids hfresh
      refine syncUsers_second_zero s kc hfu {} ((runFull s kc d0).2) ?_ ?_
      · intro u hu
        obtain ⟨r, hrmem, hrn⟩ := hF1 u hu
        rw [hd1u, ← hrn]
        exact List.mem_map_of_mem (fun rr => rr.userName) hrmem
      · intro hsw r hr
        rw [hd1u] at hr
        exact hF2 hsw r hr
  obtain ⟨huc1, hud1⟩ := huc
  refine ⟨hgu1.trans huc1, hgu2.trans hud1, ?_, hgu3.trans hgd0⟩
  cases hfg : getFilteredGroupsWithSubgroups s kc with
  | error e =>
    rw [syncGroups_fetch_error s kc idealAdapter
      (syncUsers s kc idealAdapter {} ((runFull s kc d0).2)).stats
      (syncUsers s kc idealAdapter {} ((runFull s kc d0).2)).st e hfg]
    show ((syncUsers s kc idealAdapter {}
        ((runFull s kc d0).2)).stats.addError
          ("Group sync failed: " ++ e)).groups_created = 0
    rw [addError_groups_created]
    exact hgc0
  | ok gspm =>
    obtain ⟨gs, pm⟩ := gspm
    have hu2g : (syncUsers s kc idealAdapter {}
        ((runFull s kc d0).2)).st.groups = ((runFull s kc d0).2).groups :=
      syncUsers_ideal_groups s kc {} ((runFull s kc d0).2)
    have hcov : ∀ g ∈ gs,
        (dictGet (some (groupDisplayName s.keycloak_realm (dictGet g.id pm) g))
          (dictOfList (fun r => r.displayName)
            (syncUsers s kc idealAdapter {}
              ((runFull s kc d0).2)).st.groups)).isSome := by
      intro g hg
      rw [dictGet_isSome, mem_dictKeys_dictOfList, hu2g, hd1g]
      obtain ⟨r, hrmem, hrn⟩ := firstRun_group_names s kc hfg
        (syncUsers s kc idealAdapter {} d0).stats
        (syncUsers s kc idealAdapter {} d0).st g hg
      rw [← hrn]
      exact List.mem_map_of_mem (fun rr => rr.displayName) hrmem
    exact (syncGroups_created_of_cov s kc hfg
      (syncUsers s kc idealAdapter {} ((runFull s kc d0).2)).stats
      (syncUsers s kc idealAdapter {} ((runFull s kc d0).2)).st hcov).trans hgc0

/-- Witness for `C2_second_run_convergent`: the fixture realm against the
initially empty destination satisfies the hypotheses and the second run's
create/delete counters are all zero. -/
theorem C2_second_run_convergent_witness :
    ((dFix.users.map (fun r => r.userName)).Nodup ∧
      (dFix.users.filterMap (fun r => r.id)).Nodup ∧ GenFresh dFix.users) ∧
    ((runFull sFix kcFix (runFull sFix kcFix dFix).2).1.users_created = 0 ∧
     (runFull sFix kcFix (runFull sFix kcFix dFix).2).1.users_deleted = 0 ∧
     (runFull sFix kcFix (runFull sFix kcFix dFix).2).1.groups_created = 0 ∧
     (runFull sFix kcFix (runFull sFix kcFix dFix).2).1.groups_deleted = 0) :=
  ⟨⟨by simp [dFix], by simp [dFix], by simp [dFix, GenFresh]⟩,
   C2_second_run_convergent sFix kcFix dFix (by simp [dFix]) (by simp [dFix])
     (by simp [dFix, GenFresh])⟩

end KVS
